import Mathlib

/-!
Shallow embedding of the request-shaping core of the codeb-cms repository:
the sliding-window rate limiter, the batched view-counter flusher, the
realtime message batcher, the circuit breaker and the metrics recorder.
Each definition is translated from the TypeScript source file named in its
doc comment.  Time is modelled as integer milliseconds, the Redis sorted set
backing a window key as a list of (score, tie-breaker) entries, and the
fallibility of the external stores as explicit boolean parameters.
-/

namespace CodebCMS

/-! ### Sliding-window rate limiter
(src/app/lib/middleware/rate-limiter.server.ts) -/

/-- A limit class: `windowMs` and `maxRequests` (interface RateLimitConfig). -/
structure RateLimitConfig where
  windowMs : Nat
  maxRequests : Nat
  deriving Repr, DecidableEq

/-- One member of the per-key Redis sorted set.  The source stores the member
string `now .. ':' .. math.random()` with score `now`; the member is thus
determined by the pair (timestamp, tie-breaker), which we keep directly.
The score always equals the timestamp embedded in the member. -/
structure RLEntry where
  score : Int
  nonce : Nat
  deriving Repr, DecidableEq

/-- Redis ZADD with a member `(score, nonce)`: inserting an existing member
only updates its score (here necessarily unchanged), a fresh member is
added to the set. -/
def zadd (entries : List RLEntry) (score : Int) (nonce : Nat) : List RLEntry :=
  if (⟨score, nonce⟩ : RLEntry) ∈ entries then entries
  else entries ++ [⟨score, nonce⟩]

/-- The Lua script inside `checkRateLimit`, executed atomically by Redis:
ZREMRANGEBYSCORE key -inf windowStart (drops every entry with score ≤
windowStart), ZCARD, then a conditional ZADD of the member
`now:math.random()` when the count is below the limit.  Returns the new
entry set together with the `{allowed, count}` pair the script returns.
The PEXPIRE in the insert branch only discards entries that the purge of a
later check would drop anyway, so it does not affect post-purge contents
and is not modelled. -/
def rateLimitLua (entries : List RLEntry) (windowStart now : Int)
    (maxRequests : Nat) (nonce : Nat) : List RLEntry × Bool × Nat :=
  let purged := entries.filter fun e => windowStart < e.score
  let count := purged.length
  if count < maxRequests then
    (zadd purged now nonce, true, count + 1)
  else
    (purged, false, count)

/-- interface RateLimitResult of rate-limiter.server.ts. -/
structure RateLimitResult where
  allowed : Bool
  remaining : Nat
  total : Nat
  resetAt : Int
  retryAfter : Option Nat
  deriving Repr, DecidableEq

/-- Everything observable about one `checkRateLimit` call: the new entry set
of the window key, the returned result, how many times `console.error` ran,
and which metric counters were written (the source records no metric on any
path, which the last field makes provable). -/
structure RLCheckOutcome where
  entries : List RLEntry
  result : RateLimitResult
  consoleErrors : Nat
  metricWrites : List String
  deriving Repr, DecidableEq

/-- `checkRateLimit(identifier, config)` of rate-limiter.server.ts.  The
`entries` argument is the current sorted set under the key
`keyPrefix:identifier`; `redisOk = false` plays the Redis call failing, in
which case the catch block logs the error and fails open.  The `onLimit`
callback is a caller-supplied observer with no effect on state or result
and is not modelled. -/
def checkRateLimit (entries : List RLEntry) (now : Int) (config : RateLimitConfig)
    (nonce : Nat) (redisOk : Bool) : RLCheckOutcome :=
  if redisOk then
    let r := rateLimitLua entries (now - (config.windowMs : Int)) now config.maxRequests nonce
    { entries := r.1
      result :=
        { allowed := r.2.1
          remaining := config.maxRequests - r.2.2
          total := config.maxRequests
          resetAt := now + (config.windowMs : Int)
          retryAfter := if r.2.1 then none else some ((config.windowMs + 999) / 1000) }
      consoleErrors := 0
      metricWrites := [] }
  else
    { entries := entries
      result :=
        { allowed := true
          remaining := config.maxRequests
          total := config.maxRequests
          resetAt := now + (config.windowMs : Int)
          retryAfter := none }
      consoleErrors := 1
      metricWrites := [] }

/-- Iterate `checkRateLimit` (with Redis healthy) over a list of
(time, tie-breaker) calls, returning the final entry set and the result of
every call in order. -/
def runChecks (config : RateLimitConfig) (entries : List RLEntry) :
    List (Int × Nat) → List RLEntry × List RateLimitResult
  | [] => (entries, [])
  | c :: rest =>
    let o := checkRateLimit entries c.1 config c.2 true
    let r := runChecks config o.entries rest
    (r.1, o.result :: r.2)

/-- The results the spec predicts for a run of admitted checks: the i-th
call (counting from `base` earlier insertions) is allowed with
`remaining = maxRequests - (base + i + 1)`. -/
def expectedAllowed (config : RateLimitConfig) (base : Nat) :
    List (Int × Nat) → List RateLimitResult
  | [] => []
  | c :: rest =>
    { allowed := true
      remaining := config.maxRequests - (base + 1)
      total := config.maxRequests
      resetAt := c.1 + (config.windowMs : Int)
      retryAfter := none } :: expectedAllowed config (base + 1) rest

/-! #### Lemmas about one rate-limit check -/

lemma rl_filter_eq_self {entries : List RLEntry} {ws : Int}
    (h : ∀ e ∈ entries, ws < e.score) :
    entries.filter (fun e => ws < e.score) = entries := by
  rw [List.filter_eq_self]
  intro e he
  simpa using h e he

/-- A check whose window already holds `maxRequests` live entries is denied
and leaves the (purged) set without inserting anything. -/
lemma checkRateLimit_denied {entries : List RLEntry} {now : Int}
    {config : RateLimitConfig} {nonce : Nat}
    (hwin : ∀ e ∈ entries, now - (config.windowMs : Int) < e.score)
    (hfull : config.maxRequests ≤ entries.length) :
    checkRateLimit entries now config nonce true =
      { entries := entries
        result :=
          { allowed := false
            remaining := config.maxRequests - entries.length
            total := config.maxRequests
            resetAt := now + (config.windowMs : Int)
            retryAfter := some ((config.windowMs + 999) / 1000) }
        consoleErrors := 0
        metricWrites := [] } := by
  simp only [checkRateLimit, rateLimitLua, if_true, rl_filter_eq_self hwin]
  rw [if_neg (by omega)]
  simp

/-- A check with room in the window (and a fresh tie-breaker) is allowed and
appends exactly one entry scored `now`. -/
lemma checkRateLimit_allowed {entries : List RLEntry} {now : Int}
    {config : RateLimitConfig} {nonce : Nat}
    (hwin : ∀ e ∈ entries, now - (config.windowMs : Int) < e.score)
    (hroom : entries.length < config.maxRequests)
    (hfresh : (⟨now, nonce⟩ : RLEntry) ∉ entries) :
    checkRateLimit entries now config nonce true =
      { entries := entries ++ [⟨now, nonce⟩]
        result :=
          { allowed := true
            remaining := config.maxRequests - (entries.length + 1)
            total := config.maxRequests
            resetAt := now + (config.windowMs : Int)
            retryAfter := none }
        consoleErrors := 0
        metricWrites := [] } := by
  simp only [checkRateLimit, rateLimitLua, if_true, rl_filter_eq_self hwin]
  rw [if_pos hroom, zadd, if_neg hfresh]
  simp

/-- Any check that sees fewer live entries than the limit after the purge
comes back allowed, whatever the rest of the state looks like. -/
lemma checkRateLimit_allowed_of_count {entries : List RLEntry} {now : Int}
    {config : RateLimitConfig} {nonce : Nat}
    (h : (entries.filter (fun e => now - (config.windowMs : Int) < e.score)).length
          < config.maxRequests) :
    (checkRateLimit entries now config nonce true).result.allowed = true := by
  simp only [checkRateLimit, rateLimitLua, if_true, if_pos h]

/-- During a burst of calls inside one window, starting from entries that are
all at least as new as the window start, every call is admitted, the window
accumulates exactly the call stamps, and the results follow
`expectedAllowed`. -/
lemma runChecks_allowed (config : RateLimitConfig) (t0 : Int) :
    ∀ (calls : List (Int × Nat)) (es : List RLEntry),
    (∀ c ∈ calls, t0 ≤ c.1 ∧ c.1 < t0 + (config.windowMs : Int)) →
    (∀ e ∈ es, t0 ≤ e.score) →
    es.length + calls.length ≤ config.maxRequests →
    (∀ c ∈ calls, (⟨c.1, c.2⟩ : RLEntry) ∉ es) →
    calls.Nodup →
    runChecks config es calls =
      (es ++ calls.map (fun c => ⟨c.1, c.2⟩), expectedAllowed config es.length calls)
  | [], es, _, _, _, _, _ => by simp [runChecks, expectedAllowed]
  | c :: rest, es, hin, hes, hlen, hfresh, hnodup => by
    have hc := hin c (by simp)
    have hwin : ∀ e ∈ es, c.1 - (config.windowMs : Int) < e.score := by
      intro e he
      have := hes e he
      omega
    have hroom : es.length < config.maxRequests := by
      simp only [List.length_cons] at hlen
      omega
    have hstep := @checkRateLimit_allowed es c.1 config c.2 hwin hroom (hfresh c (by simp))
    have hrec := runChecks_allowed config t0 rest (es ++ [⟨c.1, c.2⟩])
      (fun d hd => hin d (by simp [hd]))
      (by
        intro e he
        rcases List.mem_append.mp he with h | h
        · exact hes e h
        · simp only [List.mem_singleton] at h
          subst h
          exact hc.1)
      (by simp only [List.length_append, List.length_singleton]
          simp only [List.length_cons] at hlen
          omega)
      (by
        intro d hd
        simp only [List.mem_append, List.mem_singleton]
        push_neg
        refine ⟨hfresh d (by simp [hd]), ?_⟩
        intro hcontra
        have : d = c := by
          cases d; cases c
          simpa [RLEntry.mk.injEq, Prod.ext_iff] using hcontra
        rw [List.nodup_cons] at hnodup
        exact hnodup.1 (this ▸ hd))
      (List.nodup_cons.mp hnodup).2
    simp only [runChecks, hstep, hrec, expectedAllowed]
    simp [List.append_assoc]

/-- C1.  Empty window, then `maxRequests` checks with all call times inside
`[t0, t0 + windowMs)`: each is allowed with `remaining` counting down
`maxRequests-1, ..., 0` (the `expectedAllowed` list); a further check still
inside the window is denied with `retryAfter = ceil(windowMs/1000)`; and a
check issued exactly `windowMs` after the first call is allowed again. -/
theorem rateLimiter_sliding_window_e2e
    (config : RateLimitConfig) (calls : List (Int × Nat)) (t0 : Int) (n0 : Nat)
    (hmax : 0 < config.maxRequests)
    (hlen : calls.length = config.maxRequests)
    (hhead : calls.head? = some (t0, n0))
    (hin : ∀ c ∈ calls, t0 ≤ c.1 ∧ c.1 < t0 + (config.windowMs : Int))
    (hnodup : calls.Nodup)
    (t6 : Int) (n6 : Nat) (h6l : t0 ≤ t6) (h6r : t6 < t0 + (config.windowMs : Int))
    (n7 : Nat) :
    (runChecks config [] calls).2 = expectedAllowed config 0 calls ∧
    (checkRateLimit (runChecks config [] calls).1 t6 config n6 true).result.allowed = false ∧
    (checkRateLimit (runChecks config [] calls).1 t6 config n6 true).result.retryAfter =
      some ((config.windowMs + 999) / 1000) ∧
    (checkRateLimit (runChecks config [] calls).1 (t0 + (config.windowMs : Int))
        config n7 true).result.allowed = true := by
  have hrun := runChecks_allowed config t0 calls []
    hin (by simp) (by simpa using hlen.le) (by simp) hnodup
  have hentries : (runChecks config [] calls).1 = calls.map (fun c => ⟨c.1, c.2⟩) := by
    rw [hrun]
    simp
  have hscores : ∀ e ∈ (runChecks config [] calls).1, t0 ≤ e.score := by
    rw [hentries]
    intro e he
    rcases List.mem_map.mp he with ⟨c, hc, rfl⟩
    exact (hin c hc).1
  have hlen' : (runChecks config [] calls).1.length = config.maxRequests := by
    rw [hentries, List.length_map, hlen]
  refine ⟨by rw [hrun]; simp [expectedAllowed], ?_, ?_, ?_⟩
  · have := @checkRateLimit_denied (runChecks config [] calls).1 t6 config n6
      (fun e he => by have := hscores e he; omega) hlen'.ge
    rw [this]
  · have := @checkRateLimit_denied (runChecks config [] calls).1 t6 config n6
      (fun e he => by have := hscores e he; omega) hlen'.ge
    rw [this]
  · apply checkRateLimit_allowed_of_count
    rcases calls with _ | ⟨c0, rest⟩
    · simp at hhead
    · have hc0 : c0 = (t0, n0) := by simpa using hhead
      subst hc0
      rw [hentries]
      have hsub : ((((t0, n0) :: rest).map fun c => (⟨c.1, c.2⟩ : RLEntry)).filter
          (fun e => t0 + (config.windowMs : Int) - (config.windowMs : Int) < e.score)).length
          ≤ rest.length := by
        simp only [List.map_cons, List.filter_cons]
        rw [if_neg (by simp only [decide_eq_true_eq]; omega)]
        calc ((rest.map fun c => (⟨c.1, c.2⟩ : RLEntry)).filter _).length
            ≤ (rest.map fun c => (⟨c.1, c.2⟩ : RLEntry)).length := List.length_filter_le _ _
          _ = rest.length := List.length_map _ _
      have hrest : rest.length + 1 = config.maxRequests := by
        simpa using hlen
      omega

/-- Concrete instance of C1: the end-to-end scenario of the spec
(windowMs 1000, maxRequests 5, five checks at t=0, a sixth at t=100, a
final one at t=1000). -/
theorem rateLimiter_sliding_window_e2e_witness :
    (runChecks ⟨1000, 5⟩ [] [(0, 0), (0, 1), (0, 2), (0, 3), (0, 4)]).2 =
      expectedAllowed ⟨1000, 5⟩ 0 [(0, 0), (0, 1), (0, 2), (0, 3), (0, 4)] ∧
    (checkRateLimit (runChecks ⟨1000, 5⟩ [] [(0, 0), (0, 1), (0, 2), (0, 3), (0, 4)]).1
      100 ⟨1000, 5⟩ 5 true).result.allowed = false ∧
    (checkRateLimit (runChecks ⟨1000, 5⟩ [] [(0, 0), (0, 1), (0, 2), (0, 3), (0, 4)]).1
      100 ⟨1000, 5⟩ 5 true).result.retryAfter = some (((1000 : Nat) + 999) / 1000) ∧
    (checkRateLimit (runChecks ⟨1000, 5⟩ [] [(0, 0), (0, 1), (0, 2), (0, 3), (0, 4)]).1
      ((0 : Int) + ((1000 : Nat) : Int)) ⟨1000, 5⟩ 6 true).result.allowed = true :=
  rateLimiter_sliding_window_e2e ⟨1000, 5⟩ [(0, 0), (0, 1), (0, 2), (0, 3), (0, 4)] 0 0
    (by decide) (by decide) rfl (by decide) (by decide) 100 5 (by decide) (by decide) 6

/-! ### The second sliding-window limiter
(src/app/lib/cdn/static-optimizer.server.ts, checkRateLimit):
a Redis pipeline that purges, then unconditionally ZADDs the new entry,
then counts. -/

/-- Result shape of the static-optimizer checkRateLimit. -/
structure StaticRateLimitResult where
  allowed : Bool
  remaining : Nat
  resetAt : Int
  deriving Repr, DecidableEq

/-- `checkRateLimit(identifier, type)` of static-optimizer.server.ts.  The
pipeline runs ZREMRANGEBYSCORE key 0 (now-windowMs), ZADD key now
`now:Math.random()`, ZCARD, PEXPIRE: the insert happens before the count
and regardless of the limit; `allowed` is `count <= maxRequests` on the
post-insert count.  The PEXPIRE is dropped for the same reason as in
`rateLimitLua`. -/
def staticCheckRateLimit (entries : List RLEntry) (now : Int)
    (config : RateLimitConfig) (nonce : Nat) : List RLEntry × StaticRateLimitResult :=
  let purged := entries.filter fun e => ¬ (0 ≤ e.score ∧ e.score ≤ now - (config.windowMs : Int))
  let entries1 := zadd purged now nonce
  let count := entries1.length
  (entries1,
   { allowed := count ≤ config.maxRequests
     remaining := config.maxRequests - count
     resetAt := now + (config.windowMs : Int) })

/-- Iterate `staticCheckRateLimit` over (time, tie-breaker) calls. -/
def runStaticChecks (config : RateLimitConfig) (entries : List RLEntry) :
    List (Int × Nat) → List RLEntry × List StaticRateLimitResult
  | [] => (entries, [])
  | c :: rest =>
    let o := staticCheckRateLimit entries c.1 config c.2
    let r := runStaticChecks config o.1 rest
    (r.1, o.2 :: r.2)

/-- C2 counterexample.  In the static-optimizer limiter (windowMs 1000,
maxRequests 5), the sixth check at t=0 is denied, yet it still inserted its
entry: the window key now holds 6 entries newer than now - windowMs,
exceeding maxRequests.  This refutes the claim for checks made through
static-optimizer.server.ts. -/
theorem staticRateLimit_denied_still_inserts_counterexample :
    (staticCheckRateLimit
        (runStaticChecks ⟨1000, 5⟩ [] [(0, 0), (0, 1), (0, 2), (0, 3), (0, 4)]).1
        0 ⟨1000, 5⟩ 5).2.allowed = false ∧
    (runStaticChecks ⟨1000, 5⟩ [] [(0, 0), (0, 1), (0, 2), (0, 3), (0, 4)]).1.length = 5 ∧
    ((staticCheckRateLimit
        (runStaticChecks ⟨1000, 5⟩ [] [(0, 0), (0, 1), (0, 2), (0, 3), (0, 4)]).1
        0 ⟨1000, 5⟩ 5).1.filter
      (fun e => (0 : Int) - ((1000 : Nat) : Int) < e.score)).length = 6 := by
  decide

/-- C2 (amended): the property does hold for the Lua-script limiter of
rate-limiter.server.ts: a check inserts its (timestamp, tie-breaker) entry
exactly when the post-purge count is below maxRequests, a denied check
inserts nothing, and the per-key set never ends a check with more than
maxRequests entries newer than now - windowMs. -/
theorem rateLimiter_insert_only_under_limit
    (entries : List RLEntry) (now : Int) (config : RateLimitConfig) (nonce : Nat)
    (hpre : (entries.filter (fun e => now - (config.windowMs : Int) < e.score)).length
        ≤ config.maxRequests)
    (hfresh : (⟨now, nonce⟩ : RLEntry) ∉
        entries.filter (fun e => now - (config.windowMs : Int) < e.score)) :
    ((checkRateLimit entries now config nonce true).result.allowed = true ↔
      (entries.filter (fun e => now - (config.windowMs : Int) < e.score)).length
        < config.maxRequests) ∧
    ((checkRateLimit entries now config nonce true).result.allowed = false →
      (checkRateLimit entries now config nonce true).entries =
        entries.filter (fun e => now - (config.windowMs : Int) < e.score)) ∧
    ((checkRateLimit entries now config nonce true).result.allowed = true →
      (checkRateLimit entries now config nonce true).entries =
        entries.filter (fun e => now - (config.windowMs : Int) < e.score) ++ [⟨now, nonce⟩]) ∧
    (((checkRateLimit entries now config nonce true).entries.filter
        (fun e => now - (config.windowMs : Int) < e.score)).length ≤ config.maxRequests) := by
  refine ⟨?_, ?_, ?_, ?_⟩
  · by_cases hroom : (entries.filter
        (fun e => now - (config.windowMs : Int) < e.score)).length < config.maxRequests
    · simp [checkRateLimit, rateLimitLua, hroom]
    · simp [checkRateLimit, rateLimitLua, hroom]
  · intro hden
    by_cases hroom : (entries.filter
        (fun e => now - (config.windowMs : Int) < e.score)).length < config.maxRequests
    · exfalso
      revert hden
      simp [checkRateLimit, rateLimitLua, hroom]
    · simp [checkRateLimit, rateLimitLua, hroom]
  · intro hall
    by_cases hroom : (entries.filter
        (fun e => now - (config.windowMs : Int) < e.score)).length < config.maxRequests
    · simp [checkRateLimit, rateLimitLua, hroom, zadd, hfresh]
    · exfalso
      revert hall
      simp [checkRateLimit, rateLimitLua, hroom]
  · by_cases hroom : (entries.filter
        (fun e => now - (config.windowMs : Int) < e.score)).length < config.maxRequests
    · simp only [checkRateLimit, rateLimitLua, if_true, if_pos hroom, zadd, if_neg hfresh]
      rw [List.filter_append]
      simp only [List.filter_filter, Bool.and_self, List.length_append]
      have h1 : (([⟨now, nonce⟩] : List RLEntry).filter
          (fun e => now - (config.windowMs : Int) < e.score)).length ≤ 1 :=
        le_trans (List.length_filter_le _ _) (by simp)
      omega
    · simp only [checkRateLimit, rateLimitLua, if_true, if_neg hroom]
      simp only [List.filter_filter, Bool.and_self]
      exact hpre

/-- Concrete instance of the amended C2: one live entry, limit 2, a fresh
check at t=5 is admitted and appended, and the set stays within the limit. -/
theorem rateLimiter_insert_only_under_limit_witness :
    (((checkRateLimit [⟨0, 0⟩] 5 ⟨1000, 2⟩ 1 true).result.allowed = true ↔
      (([⟨0, 0⟩] : List RLEntry).filter
        (fun e => 5 - ((1000 : Nat) : Int) < e.score)).length < 2) ∧
    ((checkRateLimit [⟨0, 0⟩] 5 ⟨1000, 2⟩ 1 true).result.allowed = false →
      (checkRateLimit [⟨0, 0⟩] 5 ⟨1000, 2⟩ 1 true).entries =
        ([⟨0, 0⟩] : List RLEntry).filter (fun e => 5 - ((1000 : Nat) : Int) < e.score)) ∧
    ((checkRateLimit [⟨0, 0⟩] 5 ⟨1000, 2⟩ 1 true).result.allowed = true →
      (checkRateLimit [⟨0, 0⟩] 5 ⟨1000, 2⟩ 1 true).entries =
        ([⟨0, 0⟩] : List RLEntry).filter (fun e => 5 - ((1000 : Nat) : Int) < e.score)
          ++ [⟨5, 1⟩]) ∧
    (((checkRateLimit [⟨0, 0⟩] 5 ⟨1000, 2⟩ 1 true).entries.filter
        (fun e => 5 - ((1000 : Nat) : Int) < e.score)).length ≤ 2)) :=
  rateLimiter_insert_only_under_limit [⟨0, 0⟩] 5 ⟨1000, 2⟩ 1 (by decide) (by decide)

/-- C7 counterexample.  When the Redis call fails (store unreachable), the
middleware checkRateLimit does fail open (allowed = true), but it emits no
metric at all on that path - only a console.error - so the claimed
rejection-recording metric indicating degraded enforcement is never
recorded. -/
theorem rateLimiter_fail_open_no_metric_counterexample :
    (checkRateLimit [] 0 ⟨60000, 100⟩ 0 false).result.allowed = true ∧
    (checkRateLimit [] 0 ⟨60000, 100⟩ 0 false).metricWrites = [] := by
  decide

/-- C7 (amended): on a window-store failure checkRateLimit fails open -
returning allowed = true with a full remaining budget instead of
propagating the error - and logs one console error; it records no metric. -/
theorem rateLimiter_fail_open (entries : List RLEntry) (now : Int)
    (config : RateLimitConfig) (nonce : Nat) :
    checkRateLimit entries now config nonce false =
      { entries := entries
        result :=
          { allowed := true
            remaining := config.maxRequests
            total := config.maxRequests
            resetAt := now + (config.windowMs : Int)
            retryAfter := none }
        consoleErrors := 1
        metricWrites := [] } := rfl

/-! ### Circuit breaker
(src/app/lib/cdn/static-optimizer.server.ts, withCircuitBreaker) -/

/-- The state strings of interface CircuitState:
closed / open / half-open. -/
inductive CBState
  | closed
  | opened
  | halfOpen
  deriving Repr, DecidableEq

/-- interface CircuitState: failures, lastFailure, state. -/
structure CircuitState where
  failures : Nat
  lastFailure : Int
  state : CBState
  deriving Repr, DecidableEq

/-- CIRCUIT_THRESHOLD of static-optimizer.server.ts. -/
def CIRCUIT_THRESHOLD : Nat := 5

/-- CIRCUIT_TIMEOUT of static-optimizer.server.ts (ms). -/
def CIRCUIT_TIMEOUT : Int := 30000

/-- The default entry used when `circuitStates` has no state for a name. -/
def initialCircuitState : CircuitState := ⟨0, 0, CBState.closed⟩

/-- The four ways a withCircuitBreaker call can come back: the primary
function's value, the fallback's value, the thrown fast-fail error naming
the operation, or the primary function's error rethrown. -/
inductive CBResult (T E : Type)
  | ok (v : T)
  | fallback (v : T)
  | openError (name : String)
  | err (e : E)
  deriving Repr, DecidableEq

/-- Observable outcome of one withCircuitBreaker call: the state stored for
the operation afterwards, whether the primary function was invoked, and
what the call returned or threw. -/
structure CBStep (T E : Type) where
  newState : CircuitState
  calledFn : Bool
  result : CBResult T E
  deriving Repr, DecidableEq

/-- The try/catch body of withCircuitBreaker: `fn()` runs (so `calledFn`
is true in every outcome of this function).  On success the state is reset
only when it was half-open; on failure the counter is bumped, the failure
time stamped, and the breaker opened at CIRCUIT_THRESHOLD failures;
a fallback masks the error if supplied. -/
def cbTrial {T E : Type} (st : CircuitState) (now : Int)
    (fnResult : Except E T) (fallback : Option T) : CBStep T E :=
  match fnResult with
  | .ok v =>
    if st.state = CBState.halfOpen then
      ⟨⟨0, 0, CBState.closed⟩, true, .ok v⟩
    else
      ⟨st, true, .ok v⟩
  | .error e =>
    let f := st.failures + 1
    let s := if CIRCUIT_THRESHOLD ≤ f then CBState.opened else st.state
    match fallback with
    | some v => ⟨⟨f, now, s⟩, true, .fallback v⟩
    | none => ⟨⟨f, now, s⟩, true, .err e⟩

/-- `withCircuitBreaker(name, fn, fallback?)`.  `fnResult` is what `fn()`
would produce if invoked; it is consulted only on the paths where the
source actually awaits `fn()`. -/
def withCircuitBreaker {T E : Type} (name : String) (st0 : CircuitState) (now : Int)
    (fnResult : Except E T) (fallback : Option T) : CBStep T E :=
  if st0.state = CBState.opened then
    if CIRCUIT_TIMEOUT < now - st0.lastFailure then
      cbTrial { st0 with state := CBState.halfOpen } now fnResult fallback
    else
      match fallback with
      | some v => ⟨st0, false, .fallback v⟩
      | none => ⟨st0, false, .openError name⟩
  else
    cbTrial st0 now fnResult fallback

/-- Whether an Except value is a failure. -/
def isErr {E T : Type} : Except E T → Bool
  | .error _ => true
  | .ok _ => false

/-- Fold withCircuitBreaker over a list of (time, outcome-of-fn) calls for
one operation name, with no fallback, carrying the stored state. -/
def runCB : List (Int × Except Unit Unit) → CircuitState → CircuitState
  | [], st => st
  | s :: rest, st => runCB rest (withCircuitBreaker "op" st s.1 s.2 none).newState

/-- C3.  While the breaker of an operation is open: before the timeout the
primary function is never invoked and the call returns the fallback (or the
fast-fail error naming the operation) leaving the state untouched; once
more than CIRCUIT_TIMEOUT has elapsed since the last failure the primary
function is invoked again (half-open trial); a successful trial resets the
state to closed with zero failures; a failed trial (from a reachable open
state, failures ≥ threshold) re-opens the breaker and restamps the failure
time. -/
theorem circuitBreaker_open_behaviour {T E : Type} (name : String)
    (st0 : CircuitState) (now : Int) (fnResult : Except E T) (fb : Option T)
    (hopen : st0.state = CBState.opened) :
    (now - st0.lastFailure < CIRCUIT_TIMEOUT →
      (withCircuitBreaker name st0 now fnResult fb).calledFn = false ∧
      (withCircuitBreaker name st0 now fnResult fb).result =
        (match fb with
          | some v => CBResult.fallback v
          | none => CBResult.openError name) ∧
      (withCircuitBreaker name st0 now fnResult fb).newState = st0) ∧
    (CIRCUIT_TIMEOUT < now - st0.lastFailure →
      (withCircuitBreaker name st0 now fnResult fb).calledFn = true) ∧
    (CIRCUIT_TIMEOUT < now - st0.lastFailure → ∀ v, fnResult = Except.ok v →
      (withCircuitBreaker name st0 now fnResult fb).newState = ⟨0, 0, CBState.closed⟩) ∧
    (CIRCUIT_TIMEOUT < now - st0.lastFailure → CIRCUIT_THRESHOLD ≤ st0.failures →
      ∀ e, fnResult = Except.error e →
      (withCircuitBreaker name st0 now fnResult fb).newState.state = CBState.opened ∧
      (withCircuitBreaker name st0 now fnResult fb).newState.lastFailure = now) := by
  refine ⟨?_, ?_, ?_, ?_⟩
  · intro h
    have hc : ¬ (CIRCUIT_TIMEOUT < now - st0.lastFailure) := by omega
    cases fb <;> simp [withCircuitBreaker, hopen, hc]
  · intro h
    cases fnResult <;> cases fb <;>
      simp [withCircuitBreaker, cbTrial, hopen, h]
  · intro h v hv
    subst hv
    simp [withCircuitBreaker, cbTrial, hopen, h]
  · intro h hth e he
    subst he
    have hs : CIRCUIT_THRESHOLD ≤ st0.failures + 1 := by omega
    cases fb <;> simp [withCircuitBreaker, cbTrial, hopen, h, hs]

/-- Concrete instance of C3: breaker open at failures=5, lastFailure=0.
At t=100 the call fast-fails without touching fn; at t=40000 fn runs
again, success closes the breaker, failure re-opens it stamped at 40000. -/
theorem circuitBreaker_open_behaviour_witness :
    ((withCircuitBreaker "db" ⟨5, 0, CBState.opened⟩ 100
        (Except.ok 7 : Except Nat Nat) none).calledFn = false ∧
      (withCircuitBreaker "db" ⟨5, 0, CBState.opened⟩ 100
        (Except.ok 7 : Except Nat Nat) none).result = CBResult.openError "db" ∧
      (withCircuitBreaker "db" ⟨5, 0, CBState.opened⟩ 100
        (Except.ok 7 : Except Nat Nat) none).newState = ⟨5, 0, CBState.opened⟩) ∧
    (withCircuitBreaker "db" ⟨5, 0, CBState.opened⟩ 40000
        (Except.ok 7 : Except Nat Nat) none).calledFn = true ∧
    (withCircuitBreaker "db" ⟨5, 0, CBState.opened⟩ 40000
        (Except.ok 7 : Except Nat Nat) none).newState = ⟨0, 0, CBState.closed⟩ ∧
    (withCircuitBreaker "db" ⟨5, 0, CBState.opened⟩ 40000
        (Except.error 3 : Except Nat Nat) none).newState.state = CBState.opened ∧
    (withCircuitBreaker "db" ⟨5, 0, CBState.opened⟩ 40000
        (Except.error 3 : Except Nat Nat) none).newState.lastFailure = 40000 :=
  have h1 := circuitBreaker_open_behaviour "db" ⟨5, 0, CBState.opened⟩ 100
    (Except.ok 7 : Except Nat Nat) none rfl
  have h2 := circuitBreaker_open_behaviour "db" ⟨5, 0, CBState.opened⟩ 40000
    (Except.ok 7 : Except Nat Nat) none rfl
  have h3 := circuitBreaker_open_behaviour "db" ⟨5, 0, CBState.opened⟩ 40000
    (Except.error 3 : Except Nat Nat) none rfl
  ⟨⟨(h1.1 (by decide)).1, (h1.1 (by decide)).2.1, (h1.1 (by decide)).2.2⟩,
    h2.2.1 (by decide),
    h2.2.2.1 (by decide) 7 rfl,
    (h3.2.2.2 (by decide) (by decide) 3 rfl).1,
    (h3.2.2.2 (by decide) (by decide) 3 rfl).2⟩

/-- Closed-state runs stay closed and only accumulate, never reset. -/
lemma runCB_reaches_open :
    ∀ (steps : List (Int × Except Unit Unit)) (st : CircuitState)
      (l : Int × Except Unit Unit),
    st.state = CBState.closed →
    st.failures + (steps.filter (fun s => isErr s.2)).length = CIRCUIT_THRESHOLD →
    steps.getLast? = some l →
    isErr l.2 = true →
    (runCB steps st).state = CBState.opened
  | [], _, _, _, _, hl, _ => by simp at hl
  | [s], st, l, hcl, hcount, hl, hle => by
    have hsl : s = l := by simpa using hl
    subst hsl
    rcases s with ⟨t, r⟩
    cases r with
    | ok _ => simp [isErr] at hle
    | error e =>
      have hf : st.failures + 1 = CIRCUIT_THRESHOLD := by
        simpa [isErr] using hcount
      simp [runCB, withCircuitBreaker, cbTrial, hcl, hf.ge]
  | s :: r :: rest, st, l, hcl, hcount, hl, hle => by
    have hl' : (r :: rest).getLast? = some l := by
      simpa using hl
    have hmem : l ∈ r :: rest := by
      obtain ⟨h, rfl⟩ := List.mem_getLast?_eq_getLast (Option.mem_def.mpr hl')
      exact List.getLast_mem h
    have hpos : 0 < ((r :: rest).filter (fun s => isErr s.2)).length := by
      apply List.length_pos.mpr
      intro hnil
      have : l ∈ (r :: rest).filter (fun s => isErr s.2) :=
        List.mem_filter.mpr ⟨hmem, hle⟩
      simp [hnil] at this
    rcases s with ⟨t, fr⟩
    cases fr with
    | ok _ =>
      have hstep : (withCircuitBreaker "op" st t (Except.ok () : Except Unit Unit)
          none).newState = st := by
        simp [withCircuitBreaker, cbTrial, hcl]
      have hcount' : st.failures +
          ((r :: rest).filter (fun s => isErr s.2)).length = CIRCUIT_THRESHOLD := by
        simpa [isErr] using hcount
      simpa [runCB, hstep] using
        runCB_reaches_open (r :: rest) st l hcl hcount' hl' hle
    | error e =>
      have hcount0 : st.failures +
          (((r :: rest).filter (fun s => isErr s.2)).length + 1) = CIRCUIT_THRESHOLD := by
        simpa [isErr] using hcount
      have hlt : ¬ CIRCUIT_THRESHOLD ≤ st.failures + 1 := by omega
      have hstep : (withCircuitBreaker "op" st t (Except.error () : Except Unit Unit)
          none).newState = ⟨st.failures + 1, t, st.state⟩ := by
        simp [withCircuitBreaker, cbTrial, hcl, hlt]
      have hrec := runCB_reaches_open (r :: rest) ⟨st.failures + 1, t, st.state⟩ l
        (by simpa using hcl)
        (by simpa using by omega)
        hl' hle
      simpa [runCB, hstep] using hrec

/-- C10.  A successful call on a closed breaker returns the stored state
unchanged - the failure counter is neither reset nor decremented - and
consequently any CIRCUIT_THRESHOLD failures from a fresh state, even
interleaved with successful calls, open the circuit (the run's last step
being the threshold-th failure). -/
theorem circuitBreaker_success_keeps_failures {T E : Type} (name : String)
    (st : CircuitState) (now : Int) (v : T) (fb : Option T)
    (hclosed : st.state = CBState.closed)
    (steps : List (Int × Except Unit Unit)) (l : Int × Except Unit Unit)
    (hcount : (steps.filter (fun s => isErr s.2)).length = CIRCUIT_THRESHOLD)
    (hlast : steps.getLast? = some l)
    (hle : isErr l.2 = true) :
    withCircuitBreaker name st now (Except.ok v : Except E T) fb =
      ⟨st, true, CBResult.ok v⟩ ∧
    (runCB steps initialCircuitState).state = CBState.opened := by
  constructor
  · have hno : st.state ≠ CBState.opened := by
      rw [hclosed]
      intro hcontra
      cases hcontra
    have hnh : st.state ≠ CBState.halfOpen := by
      rw [hclosed]
      intro hcontra
      cases hcontra
    simp [withCircuitBreaker, cbTrial, hno, hnh]
  · exact runCB_reaches_open steps initialCircuitState l rfl
      (by simpa [initialCircuitState] using hcount) hlast hle

/-- Concrete instance of C10: a closed breaker with 2 recorded failures is
untouched by a success, and five failures interleaved with successes open
the breaker. -/
theorem circuitBreaker_success_keeps_failures_witness :
    withCircuitBreaker "op" ⟨2, 0, CBState.closed⟩ 50
        (Except.ok 9 : Except Nat Nat) none =
      ⟨⟨2, 0, CBState.closed⟩, true, CBResult.ok 9⟩ ∧
    (runCB [(0, Except.error ()), (1, Except.ok ()), (2, Except.error ()),
        (3, Except.ok ()), (4, Except.error ()), (5, Except.error ()),
        (6, Except.error ())] initialCircuitState).state = CBState.opened :=
  circuitBreaker_success_keeps_failures "op" ⟨2, 0, CBState.closed⟩ 50 9 none rfl
    [(0, Except.error ()), (1, Except.ok ()), (2, Except.error ()),
      (3, Except.ok ()), (4, Except.error ()), (5, Except.error ()),
      (6, Except.error ())]
    (6, Except.error ()) (by decide) rfl (by decide)

/-! ### Batched view counters
(src/app/lib/cdn/static-optimizer.server.ts, incrementViewCount /
flushViewCounters) -/

/-- The slice of the Redis key-value store the counter subsystem touches:
integer counters (INCR) and the per-key EXPIRE seconds last set. -/
structure KV where
  counters : List (String × Nat)
  expiries : List (String × Nat)
  deriving Repr, DecidableEq

/-- Redis GET of a counter key. -/
def kvLookup (kv : KV) (k : String) : Option Nat :=
  (kv.counters.find? (fun p => p.1 = k)).map (fun p => p.2)

/-- Redis INCR: create the key at 1, or bump the stored value; returns the
new value. -/
def kvIncr (kv : KV) (k : String) : KV × Nat :=
  match kvLookup kv k with
  | some n =>
    ({ kv with counters := kv.counters.map (fun p => if p.1 = k then (p.1, p.2 + 1) else p) },
      n + 1)
  | none => ({ kv with counters := kv.counters ++ [(k, 1)] }, 1)

/-- Update-or-append for the expiry table. -/
def upsertExpiry (l : List (String × Nat)) (k : String) (seconds : Nat) :
    List (String × Nat) :=
  if l.any (fun p => p.1 = k) then
    l.map (fun p => if p.1 = k then (p.1, seconds) else p)
  else l ++ [(k, seconds)]

/-- Redis EXPIRE key seconds. -/
def kvExpire (kv : KV) (k : String) (seconds : Nat) : KV :=
  { kv with expiries := upsertExpiry kv.expiries k seconds }

/-- Redis DEL of several keys (drops the key and its TTL). -/
def kvDel (kv : KV) (keys : List String) : KV :=
  { counters := kv.counters.filter (fun p => ¬ p.1 ∈ keys)
    expiries := kv.expiries.filter (fun p => ¬ p.1 ∈ keys) }

/-- CACHE_KEYS.VIEW_COUNTER of static-optimizer.server.ts. -/
def VIEW_COUNTER (postId : String) : String := "counter:views:" ++ postId

/-- `incrementViewCount(postId)`: INCR the counter key, and on the first
increment (new count 1) set a 24h expiry as the leak guard. -/
def incrementViewCount (kv : KV) (postId : String) : KV × Nat :=
  let key := VIEW_COUNTER postId
  let r := kvIncr kv key
  if r.2 = 1 then (kvExpire r.1 key 86400, r.2) else r

/-- n calls of incrementViewCount for the same post. -/
def iterateIncrement (kv : KV) (postId : String) : Nat → KV
  | 0 => kv
  | n + 1 => iterateIncrement (incrementViewCount kv postId).1 postId n

/-- The glob `counter:views:*` used by `redis.keys` in flushViewCounters. -/
def matchesViewPattern (k : String) : Bool :=
  "counter:views:".toList.isPrefixOf k.toList

/-- JavaScript `key.split(':')` on the underlying characters. -/
def splitOnColon : List Char → List (List Char)
  | [] => [[]]
  | ':' :: rest => [] :: splitOnColon rest
  | c :: rest =>
    match splitOnColon rest with
    | [] => [[c]]
    | g :: gs => (c :: g) :: gs

/-- JavaScript `key.split(':').pop()`. -/
def splitPopColon (s : String) : String :=
  ⟨(splitOnColon s.toList).getLastD []⟩

/-- One Prisma batch: `db.$transaction(updates.map(... increment ...))`.
Prisma's `update` throws when the row is missing, and the transaction is
all-or-nothing, so the batch commits exactly when every updated id has a
row; on commit every named row's views grow by its delta. -/
def dbTransactionIncrement (db : List (String × Nat))
    (updates : List (String × Nat)) : Option (List (String × Nat)) :=
  if updates.all (fun u => db.any (fun row => row.1 = u.1)) then
    some (updates.foldl
      (fun d u => d.map (fun row => if row.1 = u.1 then (row.1, row.2 + u.2) else row)) db)
  else none

deriving instance DecidableEq for Except

/-- Everything observable about one flushViewCounters run: the key-value
store and relational store afterwards, the update batches handed to the
transaction interface, and the returned count or thrown error. -/
structure FlushOutcome where
  kv : KV
  db : List (String × Nat)
  txns : List (List (String × Nat))
  result : Except Unit Nat
  deriving Repr, DecidableEq

/-- `flushViewCounters()`: enumerate `counter:views:*` keys, read their
values, build the (postId, delta > 0) update list, apply it in one batched
transaction, and only after the transaction delete the keys.  `dbOk =
false` plays the transaction call throwing; in either failure the function
rethrows after touching nothing. -/
def flushViewCounters (kv : KV) (db : List (String × Nat)) (dbOk : Bool) :
    FlushOutcome :=
  let keys := (kv.counters.map Prod.fst).filter matchesViewPattern
  if keys.isEmpty then ⟨kv, db, [], .ok 0⟩
  else
    let updates := keys.filterMap (fun k =>
      let postId := splitPopColon k
      let count := (kvLookup kv k).getD 0
      if postId ≠ "" ∧ 0 < count then some (postId, count) else none)
    if updates.isEmpty then ⟨kv, db, [], .ok 0⟩
    else
      if dbOk then
        match dbTransactionIncrement db updates with
        | some db2 => ⟨kvDel kv keys, db2, [updates], .ok updates.length⟩
        | none => ⟨kv, db, [updates], .error ()⟩
      else ⟨kv, db, [updates], .error ()⟩

/-! #### Counter lemmas -/

lemma find?_append_none {α : Type} {l₁ : List α} (l₂ : List α) (p : α → Bool)
    (h : l₁.find? p = none) : (l₁ ++ l₂).find? p = l₂.find? p := by
  induction l₁ with
  | nil => simp
  | cons a l ih =>
    simp only [List.cons_append]
    cases hpa : p a with
    | true =>
      rw [List.find?_cons_of_pos _ hpa] at h
      cases h
    | false =>
      rw [List.find?_cons_of_neg _ (by simp [hpa])] at h
      rw [List.find?_cons_of_neg _ (by simp [hpa])]
      exact ih h

lemma viewKey_not_in_clean {kv0 : KV} {k : String}
    (hclean : ∀ key ∈ kv0.counters.map Prod.fst, matchesViewPattern key = false)
    (hk : matchesViewPattern k = true) :
    kv0.counters.find? (fun p => p.1 = k) = none := by
  rw [List.find?_eq_none]
  intro p hp
  simp only [decide_eq_true_eq]
  intro hcontra
  have := hclean p.1 (List.mem_map.mpr ⟨p, hp, rfl⟩)
  rw [hcontra, hk] at this
  cases this

lemma matchesViewPattern_viewCounter (postId : String) :
    matchesViewPattern (VIEW_COUNTER postId) = true := by
  have : (VIEW_COUNTER postId).toList = "counter:views:".toList ++ postId.toList := by
    simp [VIEW_COUNTER, String.toList]
  rw [matchesViewPattern, this]
  exact List.isPrefixOf_iff_prefix.mpr (List.prefix_append _ _)

/-- After the first increment on a clean store the counter key carries the
running count and the 24h leak-guard expiry has been set once. -/
lemma iterateIncrement_from_one (kv0 : KV) (postId : String)
    (hclean : ∀ key ∈ kv0.counters.map Prod.fst, matchesViewPattern key = false) :
    ∀ (m i : Nat) (E : List (String × Nat)), 0 < i →
    iterateIncrement ⟨kv0.counters ++ [(VIEW_COUNTER postId, i)], E⟩ postId m =
      ⟨kv0.counters ++ [(VIEW_COUNTER postId, i + m)], E⟩
  | 0, i, E, _ => by simp [iterateIncrement]
  | m + 1, i, E, hi => by
    have hfind : (kv0.counters ++ [(VIEW_COUNTER postId, i)]).find?
        (fun p => p.1 = VIEW_COUNTER postId) = some (VIEW_COUNTER postId, i) := by
      rw [find?_append_none _ _
        (viewKey_not_in_clean hclean (matchesViewPattern_viewCounter postId))]
      simp
    have hmap : (kv0.counters ++ [(VIEW_COUNTER postId, i)]).map
        (fun p => if p.1 = VIEW_COUNTER postId then (p.1, p.2 + 1) else p) =
        kv0.counters ++ [(VIEW_COUNTER postId, i + 1)] := by
      rw [List.map_append]
      congr 1
      · have hid : kv0.counters.map
            (fun p => if p.1 = VIEW_COUNTER postId then (p.1, p.2 + 1) else p) =
            kv0.counters.map id := by
          apply List.map_congr_left
          intro p hp
          have hne : ¬ p.1 = VIEW_COUNTER postId := by
            have hn := viewKey_not_in_clean hclean
              (matchesViewPattern_viewCounter postId)
            rw [List.find?_eq_none] at hn
            simpa using hn p hp
          simp [hne]
        rw [hid, List.map_id]
      · simp
    have hne1 : ¬ (i + 1 = 1) := by omega
    have hstep : incrementViewCount ⟨kv0.counters ++ [(VIEW_COUNTER postId, i)], E⟩ postId =
        (⟨kv0.counters ++ [(VIEW_COUNTER postId, i + 1)], E⟩, i + 1) := by
      simp [incrementViewCount, kvIncr, kvLookup, hfind, hmap, hne1]
    rw [iterateIncrement, hstep, show i + (m + 1) = (i + 1) + m from by omega]
    exact iterateIncrement_from_one kv0 postId hclean m (i + 1) E (by omega)

/-- n increments on a store with no counter key for the post: the key ends
at value n and the leak-guard expiry was set (by the first increment). -/
lemma iterateIncrement_absent (kv0 : KV) (postId : String) (n : Nat) (hn : 0 < n)
    (hclean : ∀ key ∈ kv0.counters.map Prod.fst, matchesViewPattern key = false) :
    iterateIncrement kv0 postId n =
      ⟨kv0.counters ++ [(VIEW_COUNTER postId, n)],
        upsertExpiry kv0.expiries (VIEW_COUNTER postId) 86400⟩ := by
  rcases n with _ | m
  · omega
  · have hfind := viewKey_not_in_clean hclean
      (matchesViewPattern_viewCounter postId)
    have hstep : incrementViewCount kv0 postId =
        (⟨kv0.counters ++ [(VIEW_COUNTER postId, 1)],
          upsertExpiry kv0.expiries (VIEW_COUNTER postId) 86400⟩, 1) := by
      simp [incrementViewCount, kvIncr, kvLookup, hfind, kvExpire]
    rw [iterateIncrement, hstep, show m + 1 = 1 + m from by omega]
    exact iterateIncrement_from_one kv0 postId hclean m 1 _ (by omega)

lemma splitOnColon_ne_nil : ∀ cs : List Char, splitOnColon cs ≠ []
  | [] => by simp [splitOnColon]
  | c :: rest => by
    rw [splitOnColon.eq_def]
    split
    · simp
    · simp
    · split
      · simp
      · simp

lemma splitOnColon_no_colon : ∀ cs : List Char, (∀ c ∈ cs, c ≠ ':') →
    splitOnColon cs = [cs]
  | [], _ => rfl
  | c :: rest, h => by
    rw [splitOnColon.eq_def]
    have hc : c ≠ ':' := h c (by simp)
    split
    · rename_i heq
      exact absurd heq (by simp)
    · rename_i rest2 heq
      injection heq with h1 h2
      exact absurd h1 hc
    · rename_i c2 rest2 hne heq
      injection heq with h1 h2
      subst h1
      subst h2
      rw [splitOnColon_no_colon rest (fun d hd => h d (by simp [hd]))]

lemma two_le_splitOnColon_append : ∀ (l p : List Char),
    2 ≤ (splitOnColon (l ++ ':' :: p)).length
  | [], p => by
    show 2 ≤ (splitOnColon (':' :: p)).length
    rw [show splitOnColon (':' :: p) = [] :: splitOnColon p from rfl]
    have := splitOnColon_ne_nil p
    have : 1 ≤ (splitOnColon p).length := List.length_pos.mpr this
    simp only [List.length_cons]
    omega
  | c :: l, p => by
    show 2 ≤ (splitOnColon (c :: (l ++ ':' :: p))).length
    rw [splitOnColon.eq_def]
    split
    · rename_i heq
      exact absurd heq (by simp)
    · rename_i rest heq
      injection heq with h1 h2
      rw [← h2]
      have := splitOnColon_ne_nil (l ++ ':' :: p)
      have : 1 ≤ (splitOnColon (l ++ ':' :: p)).length := List.length_pos.mpr this
      simp only [List.length_cons]
      omega
    · rename_i c2 rest hne heq
      injection heq with h1 h2
      split
      · rename_i hnil
        exact absurd (h2 ▸ hnil) (splitOnColon_ne_nil _)
      · rename_i g gs hgs
        rw [← h2] at hgs
        have hrec := two_le_splitOnColon_append l p
        rw [hgs] at hrec
        simp only [List.length_cons] at hrec ⊢
        omega

/-- The last `:`-separated component of `l ++ ':' :: p` is the last
component of `p`. -/
lemma splitOnColon_getLast_append : ∀ (l p : List Char),
    (splitOnColon (l ++ ':' :: p)).getLastD [] = (splitOnColon p).getLastD []
  | [], p => by
    show (splitOnColon (':' :: p)).getLastD [] = _
    rw [show splitOnColon (':' :: p) = [] :: splitOnColon p from rfl]
    rw [List.getLastD_cons]
  | c :: l, p => by
    by_cases hc : c = ':'
    · subst hc
      show (splitOnColon (':' :: (l ++ ':' :: p))).getLastD [] = _
      rw [show splitOnColon (':' :: (l ++ ':' :: p)) = [] :: splitOnColon (l ++ ':' :: p)
        from rfl]
      rw [List.getLastD_cons]
      exact splitOnColon_getLast_append l p
    · show (splitOnColon (c :: (l ++ ':' :: p))).getLastD [] = _
      have hrec := splitOnColon_getLast_append l p
      rw [splitOnColon.eq_def]
      split
      · rename_i heq
        exact absurd heq (by simp)
      · rename_i rest heq
        injection heq with h1 _
        exact absurd h1 hc
      · rename_i c2 rest hne heq
        injection heq with h1 h2
        subst h1
        split
        · rename_i hnil
          exact absurd (h2 ▸ hnil) (splitOnColon_ne_nil _)
        · rename_i g gs hgs
          rw [← h2] at hgs
          cases gs with
          | nil =>
            exfalso
            have h2le := two_le_splitOnColon_append l p
            rw [hgs] at h2le
            simp at h2le
          | cons g2 gs2 =>
            rw [hgs] at hrec
            rw [← hrec]
            simp [List.getLastD_cons]

lemma splitPop_viewCounter (postId : String) (hcolon : ':' ∉ postId.toList) :
    splitPopColon (VIEW_COUNTER postId) = postId := by
  have hdata : (VIEW_COUNTER postId).toList = "counter:views".toList ++ ':' :: postId.toList := by
    show ("counter:views:" ++ postId).toList = _
    simp only [String.toList, String.data_append]
    rfl
  rw [splitPopColon, hdata, splitOnColon_getLast_append,
    splitOnColon_no_colon _ (fun c hc => by
      intro hceq
      exact hcolon (hceq ▸ hc))]
  cases postId
  simp [List.getLastD]

lemma kvIncr_expiries (kv : KV) (k : String) : (kvIncr kv k).1.expiries = kv.expiries := by
  rw [kvIncr]
  cases kvLookup kv k <;> rfl

lemma mem_upsertExpiry (l : List (String × Nat)) (k : String) (s : Nat) :
    (k, s) ∈ upsertExpiry l k s := by
  rw [upsertExpiry]
  split
  · rename_i h
    obtain ⟨p, hp, hpk⟩ := List.any_eq_true.mp h
    have hpk' : p.1 = k := by simpa using hpk
    exact List.mem_map.mpr ⟨p, hp, by simp [hpk']⟩
  · exact List.mem_append.mpr (Or.inr (by simp))

/-- A store with no `counter:views:*` keys flushes as a no-op. -/
lemma flush_no_view_keys (kv : KV) (db : List (String × Nat)) (dbOk : Bool)
    (hclean : ∀ k ∈ kv.counters.map Prod.fst, matchesViewPattern k = false) :
    flushViewCounters kv db dbOk = ⟨kv, db, [], .ok 0⟩ := by
  have hkeys : (kv.counters.map Prod.fst).filter matchesViewPattern = [] :=
    List.filter_eq_nil_iff.mpr (fun a ha => by simp [hclean a ha])
  simp [flushViewCounters, hkeys]

/-- C4.  Incrementing a post n > 0 times then flushing issues exactly one
batched transaction carrying the single delta (postId, n); the flush
returns 1 updated entity, adds exactly n to the post's row, and deletes the
counter key, so a second flush with no intervening increments issues no
transaction and reports 0; the 24h leak-guard expiry is present after the
increments, and in general one increment writes the expiry exactly when it
takes the count to 1. -/
theorem counterFlusher_delta_flush
    (kv0 : KV) (db : List (String × Nat)) (postId : String) (n : Nat)
    (hn : 0 < n)
    (hpid : postId ≠ "")
    (hcolon : ':' ∉ postId.toList)
    (hclean : ∀ k ∈ kv0.counters.map Prod.fst, matchesViewPattern k = false)
    (hrow : db.any (fun row => row.1 = postId) = true) :
    (flushViewCounters (iterateIncrement kv0 postId n) db true).txns = [[(postId, n)]] ∧
    (flushViewCounters (iterateIncrement kv0 postId n) db true).result = Except.ok 1 ∧
    (flushViewCounters (iterateIncrement kv0 postId n) db true).db =
      db.map (fun row => if row.1 = postId then (row.1, row.2 + n) else row) ∧
    (flushViewCounters (iterateIncrement kv0 postId n) db true).kv.counters = kv0.counters ∧
    (flushViewCounters (flushViewCounters (iterateIncrement kv0 postId n) db true).kv
        (flushViewCounters (iterateIncrement kv0 postId n) db true).db true).txns = [] ∧
    (flushViewCounters (flushViewCounters (iterateIncrement kv0 postId n) db true).kv
        (flushViewCounters (iterateIncrement kv0 postId n) db true).db true).result =
      Except.ok 0 ∧
    (VIEW_COUNTER postId, 86400) ∈ (iterateIncrement kv0 postId n).expiries ∧
    (∀ (kv : KV) (p : String), (incrementViewCount kv p).2 = 1 →
      (VIEW_COUNTER p, 86400) ∈ (incrementViewCount kv p).1.expiries) ∧
    (∀ (kv : KV) (p : String), (incrementViewCount kv p).2 ≠ 1 →
      (incrementViewCount kv p).1.expiries = kv.expiries) := by
  have hiter := iterateIncrement_absent kv0 postId n hn hclean
  have hfind0 : kv0.counters.find? (fun p => p.1 = VIEW_COUNTER postId) = none :=
    viewKey_not_in_clean hclean (matchesViewPattern_viewCounter postId)
  have hkeys : ((kv0.counters ++ [(VIEW_COUNTER postId, n)]).map Prod.fst).filter
      matchesViewPattern = [VIEW_COUNTER postId] := by
    rw [List.map_append, List.filter_append, List.filter_eq_nil_iff.mpr
      (fun a ha => by simp [hclean a ha])]
    simp [matchesViewPattern_viewCounter]
  have hlookup : kvLookup ⟨kv0.counters ++ [(VIEW_COUNTER postId, n)],
      upsertExpiry kv0.expiries (VIEW_COUNTER postId) 86400⟩ (VIEW_COUNTER postId) =
      some n := by
    simp only [kvLookup]
    rw [find?_append_none _ _ hfind0]
    simp
  have htx : dbTransactionIncrement db [(postId, n)] =
      some (db.map (fun row => if row.1 = postId then (row.1, row.2 + n) else row)) := by
    rw [dbTransactionIncrement, if_pos (by simp [hrow])]
    simp
  have hdel : ∀ p ∈ kv0.counters, ¬ p.1 ∈ [VIEW_COUNTER postId] := by
    intro p hp
    simp only [List.mem_singleton]
    intro hcontra
    rw [List.find?_eq_none] at hfind0
    simpa [hcontra] using hfind0 p hp
  have hflush : flushViewCounters (iterateIncrement kv0 postId n) db true =
      ⟨⟨kv0.counters,
          (upsertExpiry kv0.expiries (VIEW_COUNTER postId) 86400).filter
            (fun p => ¬ p.1 ∈ [VIEW_COUNTER postId])⟩,
        db.map (fun row => if row.1 = postId then (row.1, row.2 + n) else row),
        [[(postId, n)]], .ok 1⟩ := by
    rw [hiter]
    simp only [flushViewCounters, hkeys, List.isEmpty_cons, List.filterMap_cons,
      splitPop_viewCounter postId hcolon, hlookup, Option.getD_some]
    rw [if_pos (show postId ≠ "" ∧ 0 < n from ⟨hpid, hn⟩)]
    simp only [List.filterMap_nil, List.isEmpty_nil, Bool.false_eq_true, if_false, if_true,
      htx, kvDel]
    have hfilterc : kv0.counters.filter
        (fun p => ¬ p.1 ∈ [VIEW_COUNTER postId]) = kv0.counters := by
      rw [List.filter_eq_self]
      intro p hp
      simpa using hdel p hp
    have hfilters : ([(VIEW_COUNTER postId, n)] : List (String × Nat)).filter
        (fun p => ¬ p.1 ∈ [VIEW_COUNTER postId]) = [] := by
      simp
    rw [List.filter_append, hfilterc, hfilters, List.append_nil]
    simp
  have hsecond : flushViewCounters
      (flushViewCounters (iterateIncrement kv0 postId n) db true).kv
      (flushViewCounters (iterateIncrement kv0 postId n) db true).db true =
      ⟨(flushViewCounters (iterateIncrement kv0 postId n) db true).kv,
        (flushViewCounters (iterateIncrement kv0 postId n) db true).db, [], .ok 0⟩ := by
    apply flush_no_view_keys
    rw [hflush]
    exact hclean
  refine ⟨by rw [hflush], by rw [hflush], by rw [hflush], by rw [hflush],
    by rw [hsecond], by rw [hsecond], ?_, ?_, ?_⟩
  · rw [hiter]
    exact mem_upsertExpiry _ _ _
  · intro kv p hone
    have hcond : (kvIncr kv (VIEW_COUNTER p)).2 = 1 := by
      by_cases h : (kvIncr kv (VIEW_COUNTER p)).2 = 1
      · exact h
      · exact absurd (by simpa [incrementViewCount, h] using hone) h
    simp only [incrementViewCount, hcond, if_true, kvExpire, kvIncr_expiries]
    exact mem_upsertExpiry _ _ _
  · intro kv p hnot
    have hcond : ¬ (kvIncr kv (VIEW_COUNTER p)).2 = 1 := by
      intro h
      exact hnot (by simpa [incrementViewCount, h])
    simp only [incrementViewCount, hcond, if_false]
    exact kvIncr_expiries kv (VIEW_COUNTER p)

/-- Concrete instance of C4: seven increments of post p1 on a store holding
one unrelated key, flushed into a one-row database. -/
theorem counterFlusher_delta_flush_witness :
    (flushViewCounters (iterateIncrement ⟨[("x", 3)], []⟩ "p1" 7) [("p1", 10)] true).txns =
      [[("p1", 7)]] ∧
    (flushViewCounters (iterateIncrement ⟨[("x", 3)], []⟩ "p1" 7) [("p1", 10)] true).result =
      Except.ok 1 ∧
    (flushViewCounters (iterateIncrement ⟨[("x", 3)], []⟩ "p1" 7) [("p1", 10)] true).db =
      [("p1", 10)].map (fun row => if row.1 = "p1" then (row.1, row.2 + 7) else row) ∧
    (flushViewCounters (iterateIncrement ⟨[("x", 3)], []⟩ "p1" 7) [("p1", 10)] true).kv.counters =
      [("x", 3)] ∧
    (flushViewCounters
        (flushViewCounters (iterateIncrement ⟨[("x", 3)], []⟩ "p1" 7) [("p1", 10)] true).kv
        (flushViewCounters (iterateIncrement ⟨[("x", 3)], []⟩ "p1" 7) [("p1", 10)] true).db
        true).txns = [] ∧
    (flushViewCounters
        (flushViewCounters (iterateIncrement ⟨[("x", 3)], []⟩ "p1" 7) [("p1", 10)] true).kv
        (flushViewCounters (iterateIncrement ⟨[("x", 3)], []⟩ "p1" 7) [("p1", 10)] true).db
        true).result = Except.ok 0 ∧
    (VIEW_COUNTER "p1", 86400) ∈ (iterateIncrement ⟨[("x", 3)], []⟩ "p1" 7).expiries :=
  have h := counterFlusher_delta_flush ⟨[("x", 3)], []⟩ [("p1", 10)] "p1" 7
    (by decide) (by decide) (by decide) (by decide) (by decide)
  ⟨h.1, h.2.1, h.2.2.1, h.2.2.2.1, h.2.2.2.2.1, h.2.2.2.2.2.1, h.2.2.2.2.2.2.1⟩

/-- C5.  A flush whose batched transaction throws deletes no counter key and
leaves the relational store untouched (the deltas stay for the next run);
and whenever a flush did change the key-value store, it did not throw -
deletion happens only after the transaction committed. -/
theorem counterFlusher_failed_flush_keeps_deltas
    (kv : KV) (db : List (String × Nat)) (dbOk : Bool) :
    ((flushViewCounters kv db dbOk).result = Except.error () →
      (flushViewCounters kv db dbOk).kv = kv ∧ (flushViewCounters kv db dbOk).db = db) ∧
    (dbOk = false → (flushViewCounters kv db dbOk).kv = kv ∧
      (flushViewCounters kv db dbOk).db = db) ∧
    ((flushViewCounters kv db dbOk).kv ≠ kv →
      (flushViewCounters kv db dbOk).result ≠ Except.error ()) := by
  rw [flushViewCounters]
  dsimp only
  repeat' split
  all_goals simp_all

/-- Concrete instance of C5: a flush over one pending delta with the
transaction failing leaves both stores untouched. -/
theorem counterFlusher_failed_flush_keeps_deltas_witness :
    ((flushViewCounters ⟨[("counter:views:p1", 4)], []⟩ [("p1", 2)] false).result =
        Except.error () →
      (flushViewCounters ⟨[("counter:views:p1", 4)], []⟩ [("p1", 2)] false).kv =
        ⟨[("counter:views:p1", 4)], []⟩ ∧
      (flushViewCounters ⟨[("counter:views:p1", 4)], []⟩ [("p1", 2)] false).db =
        [("p1", 2)]) ∧
    ((false = false) → (flushViewCounters ⟨[("counter:views:p1", 4)], []⟩ [("p1", 2)] false).kv =
        ⟨[("counter:views:p1", 4)], []⟩ ∧
      (flushViewCounters ⟨[("counter:views:p1", 4)], []⟩ [("p1", 2)] false).db =
        [("p1", 2)]) ∧
    ((flushViewCounters ⟨[("counter:views:p1", 4)], []⟩ [("p1", 2)] false).kv ≠
        ⟨[("counter:views:p1", 4)], []⟩ →
      (flushViewCounters ⟨[("counter:views:p1", 4)], []⟩ [("p1", 2)] false).result ≠
        Except.error ()) :=
  counterFlusher_failed_flush_keeps_deltas ⟨[("counter:views:p1", 4)], []⟩ [("p1", 2)] false

/-! ### Realtime message batcher
(src/unnamed/part_001, queueMessage / flushMessageQueue) -/

/-- interface QueuedMessage: channel, data, timestamp. -/
structure QueuedMessage (α : Type) where
  channel : String
  data : α
  timestamp : Int
  deriving Repr, DecidableEq

/-- What publishToChannel receives per channel in a flush: a lone message's
payload passed through unchanged (wrapped here only to type the union), or
the combined object with type 'batch', the ordered payload list and its
count. -/
inductive PublishedPayload (α : Type)
  | single (d : α)
  | batch (messages : List α) (count : Nat)
  deriving Repr, DecidableEq

/-- BATCH_CONFIG.maxSize. -/
def BATCH_MAX_SIZE : Nat := 100

/-- One step of the channel grouping in flushMessageQueue: a JavaScript Map
keyed by channel, pushing each payload onto its channel's array.  Updating
an existing key keeps its position, a new key is appended (Map iteration is
insertion-ordered). -/
def addToGroups {α : Type} (groups : List (String × List α)) (ch : String) (d : α) :
    List (String × List α) :=
  if groups.any (fun g => g.1 = ch) then
    groups.map (fun g => if g.1 = ch then (g.1, g.2 ++ [d]) else g)
  else groups ++ [(ch, [d])]

/-- The channelGroups map after the grouping loop of flushMessageQueue. -/
def groupByChannel {α : Type} (msgs : List (QueuedMessage α)) : List (String × List α) :=
  msgs.foldl (fun g m => addToGroups g m.channel m.data) []

/-- `flushMessageQueue()`: return early on an empty queue, otherwise drain
the queue (splice(0) happens before any publish), group by channel, and
publish per channel - a lone message unchanged, several as one batch
payload.  `pubOk = false` plays the awaited Promise.all of the publishes
rejecting: the catch block only logs, nothing is re-queued and nothing is
rethrown.  Returns (queue afterwards, publishes handed to the delivery
service, whether the catch logged an error). -/
def flushMessageQueue {α : Type} (queue : List (QueuedMessage α)) (pubOk : Bool) :
    List (QueuedMessage α) × List (String × PublishedPayload α) × Bool :=
  if queue.isEmpty then (queue, [], false)
  else
    let groups := groupByChannel queue
    let pubs := groups.map (fun g =>
      (g.1, match g.2 with
        | [d] => PublishedPayload.single d
        | ds => PublishedPayload.batch ds ds.length))
    ([], pubs, !pubOk)

/-- `queueMessage(channel, data)`: push onto the queue and flush at once
when BATCH_CONFIG.maxSize is reached (otherwise a timer flushes the same
queue later). -/
def queueMessage {α : Type} (queue : List (QueuedMessage α)) (ch : String) (d : α)
    (now : Int) (pubOk : Bool) :
    List (QueuedMessage α) × List (String × PublishedPayload α) × Bool :=
  let q2 := queue ++ [⟨ch, d, now⟩]
  if BATCH_MAX_SIZE ≤ q2.length then flushMessageQueue q2 pubOk
  else (q2, [], false)

/-! #### Grouping lemmas -/

lemma map_update_filter {α : Type} (ch ch2 : String) (d : α) :
    ∀ groups : List (String × List α),
    (groups.map (fun g => if g.1 = ch2 then (g.1, g.2 ++ [d]) else g)).filter
        (fun g => g.1 = ch) =
      (groups.filter (fun g => g.1 = ch)).map
        (fun g => if g.1 = ch2 then (g.1, g.2 ++ [d]) else g)
  | [] => rfl
  | ⟨k, v⟩ :: gs => by
    simp only [List.map_cons]
    by_cases hg2 : k = ch2
    · subst hg2
      by_cases hg : k = ch
      · subst hg
        simp [List.filter_cons, map_update_filter k k d gs]
      · simp [List.filter_cons, hg, map_update_filter ch k d gs]
    · by_cases hg : k = ch
      · subst hg
        simp [List.filter_cons, hg2, map_update_filter k ch2 d gs]
      · simp [List.filter_cons, hg2, hg, map_update_filter ch ch2 d gs]

lemma addToGroups_filter_other {α : Type} (groups : List (String × List α))
    {ch ch2 : String} (d : α) (hne : ch2 ≠ ch) :
    (addToGroups groups ch2 d).filter (fun g => g.1 = ch) =
      groups.filter (fun g => g.1 = ch) := by
  rw [addToGroups]
  split
  · rw [map_update_filter]
    have hid : ∀ g ∈ groups.filter (fun g => g.1 = ch),
        (if g.1 = ch2 then (g.1, g.2 ++ [d]) else g) = g := by
      intro g hg
      have : g.1 = ch := by simpa using (List.mem_filter.mp hg).2
      rw [if_neg (by rw [this]; exact fun hc => hne hc.symm)]
    rw [List.map_congr_left hid]
    simp
  · rw [List.filter_append]
    simp [hne]

lemma addToGroups_filter_same_present {α : Type} {groups : List (String × List α)}
    {ch : String} (d : α) {ds0 : List α}
    (h : groups.filter (fun g => g.1 = ch) = [(ch, ds0)]) :
    (addToGroups groups ch d).filter (fun g => g.1 = ch) = [(ch, ds0 ++ [d])] := by
  have hany : groups.any (fun g => g.1 = ch) = true := by
    apply List.any_eq_true.mpr
    have hmem : (ch, ds0) ∈ groups.filter (fun g => g.1 = ch) := by
      rw [h]
      simp
    refine ⟨(ch, ds0), List.mem_of_mem_filter hmem, by simp⟩
  rw [addToGroups, if_pos hany, map_update_filter, h]
  simp

lemma addToGroups_filter_same_absent {α : Type} {groups : List (String × List α)}
    {ch : String} (d : α)
    (h : groups.filter (fun g => g.1 = ch) = []) :
    (addToGroups groups ch d).filter (fun g => g.1 = ch) = [(ch, [d])] := by
  have hany : groups.any (fun g => g.1 = ch) = false := by
    rw [← Bool.not_eq_true]
    intro hcontra
    obtain ⟨g, hg, hgc⟩ := List.any_eq_true.mp hcontra
    have : g ∈ groups.filter (fun g => g.1 = ch) := List.mem_filter.mpr ⟨hg, hgc⟩
    rw [h] at this
    cases this
  rw [addToGroups, hany]
  simp only [Bool.false_eq_true, if_false, List.filter_append, h]
  simp

lemma foldl_addToGroups_present {α : Type} (ch : String) :
    ∀ (msgs : List (QueuedMessage α)) (acc : List (String × List α)) (ds0 : List α),
    acc.filter (fun g => g.1 = ch) = [(ch, ds0)] →
    ((msgs.foldl (fun g m => addToGroups g m.channel m.data) acc).filter
      (fun g => g.1 = ch)) =
      [(ch, ds0 ++ (msgs.filter (fun m => m.channel = ch)).map (fun m => m.data))]
  | [], acc, ds0, h => by simpa using h
  | m :: rest, acc, ds0, h => by
    rw [List.foldl_cons]
    by_cases hm : m.channel = ch
    · rw [hm]
      have hstep := addToGroups_filter_same_present m.data h
      rw [foldl_addToGroups_present ch rest _ _ hstep]
      simp [hm, List.append_assoc]
    · have hstep := (addToGroups_filter_other acc m.data hm).trans h
      rw [foldl_addToGroups_present ch rest _ _ hstep]
      simp [hm]

lemma foldl_addToGroups_absent {α : Type} (ch : String) :
    ∀ (msgs : List (QueuedMessage α)) (acc : List (String × List α)),
    acc.filter (fun g => g.1 = ch) = [] →
    ((msgs.foldl (fun g m => addToGroups g m.channel m.data) acc).filter
      (fun g => g.1 = ch)) =
      (match (msgs.filter (fun m => m.channel = ch)).map (fun m => m.data) with
        | [] => []
        | ds => [(ch, ds)])
  | [], acc, h => by simpa using h
  | m :: rest, acc, h => by
    rw [List.foldl_cons]
    by_cases hm : m.channel = ch
    · rw [hm]
      have hstep := addToGroups_filter_same_absent m.data h
      rw [foldl_addToGroups_present ch rest _ _ hstep]
      rcases hrest : (rest.filter (fun m => m.channel = ch)).map (fun m => m.data)
        with _ | ⟨d2, ds2⟩ <;>
        simp [hm, hrest]
    · have hstep := (addToGroups_filter_other acc m.data hm).trans h
      rw [foldl_addToGroups_absent ch rest _ hstep]
      simp [hm]

lemma pubs_filter {α : Type} (ch : String) :
    ∀ groups : List (String × List α),
    ((groups.map (fun g =>
        (g.1, match g.2 with
          | [d] => PublishedPayload.single d
          | ds => PublishedPayload.batch ds ds.length))).filter (fun p => p.1 = ch)) =
      (groups.filter (fun g => g.1 = ch)).map (fun g =>
        (g.1, match g.2 with
          | [d] => PublishedPayload.single d
          | ds => PublishedPayload.batch ds ds.length))
  | [] => rfl
  | ⟨k, v⟩ :: gs => by
    by_cases hk : k = ch <;> simp [List.filter_cons, hk, pubs_filter ch gs]

/-- C6.  For every queue state and channel, one flush produces exactly the
publishes the spec describes: nothing for a channel with no pending
message; the payload passed through as a single message for a channel with
exactly one; and exactly one batch payload carrying all the channel's
payloads in enqueue order together with their count for a channel with
several. -/
theorem messageBatcher_flush_grouping {α : Type} (queue : List (QueuedMessage α))
    (ch : String) :
    ((flushMessageQueue queue true).2.1.filter (fun p => p.1 = ch)) =
      (match (queue.filter (fun m => m.channel = ch)).map (fun m => m.data) with
        | [] => []
        | [d] => [(ch, PublishedPayload.single d)]
        | ds => [(ch, PublishedPayload.batch ds ds.length)]) := by
  rcases hq : queue with _ | ⟨m0, rest⟩
  · simp [flushMessageQueue]
  · rw [← hq]
    have hne : queue.isEmpty = false := by rw [hq]; rfl
    rw [flushMessageQueue]
    simp only [hne, Bool.false_eq_true, if_false]
    rw [pubs_filter ch (groupByChannel queue)]
    rw [groupByChannel, foldl_addToGroups_absent ch queue [] (by simp)]
    rcases hds : (queue.filter (fun m => m.channel = ch)).map (fun m => m.data)
      with _ | ⟨d, ds⟩
    · rw [hds]
      rfl
    · rcases ds with _ | ⟨d2, ds2⟩
      · rw [hds]
        rfl
      · rw [hds]
        rfl

/-- C8.  When publishing fails, the flushed messages are gone: the queue is
empty afterwards, the very same publishes were attempted as in a successful
flush (so nothing is retried - a following flush starts from the empty
queue and publishes nothing), and a caller of queueMessage observes exactly
the same queue and publishes as on success; the failure surfaces only as
the logged-error flag, never as a thrown error. -/
theorem messageBatcher_drop_on_failure {α : Type} (queue : List (QueuedMessage α))
    (ch : String) (d : α) (now : Int) :
    (flushMessageQueue queue false).1 = [] ∧
    (flushMessageQueue queue false).2.1 = (flushMessageQueue queue true).2.1 ∧
    flushMessageQueue ((flushMessageQueue queue false).1) false = ([], [], false) ∧
    (queueMessage queue ch d now false).1 = (queueMessage queue ch d now true).1 ∧
    (queueMessage queue ch d now false).2.1 = (queueMessage queue ch d now true).2.1 := by
  have hflush : ∀ b, (flushMessageQueue queue b).1 = [] ∧
      (flushMessageQueue queue b).2.1 = (flushMessageQueue queue true).2.1 := by
    intro b
    rw [flushMessageQueue, flushMessageQueue]
    split
    · rename_i h
      rw [List.isEmpty_iff] at h
      simp [h]
    · simp
  refine ⟨(hflush false).1, (hflush false).2, ?_, ?_, ?_⟩
  · rw [(hflush false).1]
    rfl
  · rw [queueMessage, queueMessage]
    split
    · have h := hflush
      rw [flushMessageQueue, flushMessageQueue]
      split
      · simp
      · simp
    · rfl
  · rw [queueMessage, queueMessage]
    split
    · rw [flushMessageQueue, flushMessageQueue]
      split
      · simp
      · simp
    · rfl

/-! ### Request metrics
(src/app/lib/security/security-scanner.server.ts: recordRequest /
normalizePath / parseEndpointStats) -/

/-- The Redis commands recordRequest issues in its pipeline. -/
inductive RedisCmd
  | incr (key : String)
  | expire (key : String) (seconds : Nat)
  | lpush (key : String) (value : Int)
  | ltrim (key : String) (start stop : Int)
  | hincrby (key : String) (field : String) (amount : Int)
  deriving Repr, DecidableEq

/-- The character class [a-z0-9] with the i flag, from the CUID/UUID
segment regex of normalizePath. -/
def isAlnumAscii (c : Char) : Bool :=
  ('a' ≤ c ∧ c ≤ 'z') ∨ ('A' ≤ c ∧ c ≤ 'Z') ∨ ('0' ≤ c ∧ c ≤ '9')

/-- The digit class of the numeric segment regex. -/
def isDigitAscii (c : Char) : Bool := '0' ≤ c ∧ c ≤ '9'

/-- First replace of normalizePath: each match of a slash followed by 24 or
more alphanumeric characters (greedy, global) becomes the four characters
of the slash-and-id placeholder; on a failed match the scan advances one
character. -/
def normIdPass : List Char → List Char
  | [] => []
  | c :: rest =>
    if c = '/' then
      if 24 ≤ (rest.takeWhile isAlnumAscii).length then
        '/' :: ':' :: 'i' :: 'd' :: normIdPass (rest.dropWhile isAlnumAscii)
      else '/' :: normIdPass rest
    else c :: normIdPass rest
termination_by l => l.length
decreasing_by
  all_goals simp only [List.length_cons]
  all_goals first
    | omega
    | exact Nat.lt_succ_of_le ((List.dropWhile_suffix _).sublist.length_le)

/-- Second replace: each slash followed by one or more digits becomes the
slash-and-num placeholder. -/
def normNumPass : List Char → List Char
  | [] => []
  | c :: rest =>
    if c = '/' then
      if 1 ≤ (rest.takeWhile isDigitAscii).length then
        '/' :: ':' :: 'n' :: 'u' :: 'm' :: normNumPass (rest.dropWhile isDigitAscii)
      else '/' :: normNumPass rest
    else c :: normNumPass rest
termination_by l => l.length
decreasing_by
  all_goals simp only [List.length_cons]
  all_goals first
    | omega
    | exact Nat.lt_succ_of_le ((List.dropWhile_suffix _).sublist.length_le)

/-- Third replace: every match of a question mark followed by any
characters (which in a regex stops before a newline) is removed. -/
def stripQuery : List Char → List Char
  | [] => []
  | c :: rest =>
    if c = '?' then stripQuery (rest.dropWhile (fun d => ¬ d = '\n'))
    else c :: stripQuery rest
termination_by l => l.length
decreasing_by
  all_goals simp only [List.length_cons]
  all_goals first
    | omega
    | exact Nat.lt_succ_of_le ((List.dropWhile_suffix _).sublist.length_le)

/-- `normalizePath(path)`: the three replaces in source order. -/
def normalizePath (path : String) : String :=
  ⟨stripQuery (normNumPass (normIdPass path.toList))⟩

/-- `recordRequest(path, method, statusCode, latencyMs)`: the pipeline of
commands, bucketed by the current minute string.  Latency values are
integer millisecond counts (Date.now differences), so Math.round on the
hincrby amount is the identity and `lpush` carries the number itself
rather than its decimal string. -/
def recordRequest (path method : String) (statusCode latencyMs : Int)
    (minute : String) : List RedisCmd :=
  [RedisCmd.incr ("metrics:requests:" ++ minute),
   RedisCmd.expire ("metrics:requests:" ++ minute) 3600,
   RedisCmd.lpush ("metrics:latency:" ++ minute) latencyMs,
   RedisCmd.ltrim ("metrics:latency:" ++ minute) 0 999,
   RedisCmd.expire ("metrics:latency:" ++ minute) 3600] ++
  (if 400 ≤ statusCode then
    [RedisCmd.incr ("metrics:errors:" ++ minute),
     RedisCmd.expire ("metrics:errors:" ++ minute) 3600,
     RedisCmd.incr ("metrics:errors:type:" ++
       (if 500 ≤ statusCode then "5xx" else "4xx"))]
   else []) ++
  [RedisCmd.hincrby ("metrics:endpoint:" ++ minute)
     (method ++ ":" ++ normalizePath path ++ ":count") 1,
   RedisCmd.hincrby ("metrics:endpoint:" ++ minute)
     (method ++ ":" ++ normalizePath path ++ ":latency") latencyMs,
   RedisCmd.expire ("metrics:endpoint:" ++ minute) 3600]

/-- Whether a pipeline command is an endpoint-hash increment. -/
def isHincrby : RedisCmd → Bool
  | .hincrby _ _ _ => true
  | _ => false

/-- JavaScript `key.split(':')` on strings. -/
def splitColonStr (s : String) : List String :=
  (splitOnColon s.toList).map (fun g => ⟨g⟩)

/-- One iteration of the endpoints loop in parseEndpointStats: split the
hash field on colons, skip fields with fewer than three parts, ensure the
method:path entry exists (insertion order), and set its count or
totalLatency from the field's value. -/
def parseStep (endpoints : List (String × Int × Int)) (entry : String × Int) :
    List (String × Int × Int) :=
  let parts := splitColonStr entry.1
  if parts.length < 3 then endpoints
  else
    let method := parts.getD 0 ""
    let path := parts.getD 1 ""
    let metric := parts.getD 2 ""
    let key := method ++ ":" ++ path
    let e0 := if endpoints.any (fun e => e.1 = key) then endpoints
      else endpoints ++ [(key, 0, 0)]
    e0.map (fun e =>
      if e.1 = key then
        (if metric = "count" then (e.1, entry.2, e.2.2)
         else if metric = "latency" then (e.1, e.2.1, entry.2)
         else e)
      else e)

/-- One reported endpoint row. -/
structure EndpointEntry where
  method : String
  path : String
  count : Int
  avgLatencyMs : Int
  deriving Repr, DecidableEq

/-- JavaScript Math.round(num/den) for den > 0: floor of num/den + 1/2. -/
def jsRoundDiv (num den : Int) : Int := Int.fdiv (2 * num + den) (2 * den)

/-- Insert keeping the list sorted by count descending, after any equal
counts (so the overall sort is stable). -/
def insertDesc (x : EndpointEntry) : List EndpointEntry → List EndpointEntry
  | [] => [x]
  | y :: ys => if y.count < x.count then x :: y :: ys else y :: insertDesc x ys

/-- Array.prototype.sort with comparator (a, b) => b.count - a.count: a
stable descending sort by count, realised as stable insertion sort. -/
def sortByCountDesc (l : List EndpointEntry) : List EndpointEntry :=
  l.foldr insertDesc []

/-- `parseEndpointStats(stats)`: aggregate the hash fields, turn each
aggregate into a row (re-splitting its key), sort by count descending and
keep the top 10. -/
def parseEndpointStats (stats : List (String × Int)) : List EndpointEntry :=
  let endpoints := stats.foldl parseStep []
  let entries := endpoints.map (fun e =>
    let parts := splitColonStr e.1
    (⟨parts.getD 0 "", parts.getD 1 "", e.2.1,
      if 0 < e.2.1 then jsRoundDiv e.2.2 e.2.1 else 0⟩ : EndpointEntry))
  (sortByCountDesc entries).take 10

/-- The path written as slash-separated segments. -/
def joinSegs (segs : List (List Char)) : List Char :=
  segs.foldr (fun s acc => '/' :: (s ++ acc)) []

/-- The per-segment effect of the two placeholder replaces. -/
def normSegChars (s : List Char) : List Char :=
  if 24 ≤ s.length then [':', 'i', 'd']
  else if s.all isDigitAscii then [':', 'n', 'u', 'm']
  else s

/-! #### Path-normalization lemmas -/

lemma takeWhile_append_cases (p : Char → Bool) :
    ∀ xs ys : List Char,
    (xs.all p = true ∧ (xs ++ ys).takeWhile p = xs ++ ys.takeWhile p ∧
      (xs ++ ys).dropWhile p = ys.dropWhile p) ∨
    (xs.all p = false ∧ (xs ++ ys).takeWhile p = xs.takeWhile p ∧
      (xs ++ ys).dropWhile p = xs.dropWhile p ++ ys)
  | [], ys => Or.inl ⟨rfl, by simp, by simp⟩
  | x :: xs, ys => by
    cases hx : p x with
    | true =>
      rcases takeWhile_append_cases p xs ys with ⟨h1, h2, h3⟩ | ⟨h1, h2, h3⟩
      · exact Or.inl ⟨by simp [h1, hx], by simp [List.takeWhile_cons, hx, h2],
          by simp [List.dropWhile_cons, hx, h3]⟩
      · exact Or.inr ⟨by simp [h1, hx], by simp [List.takeWhile_cons, hx, h2],
          by simp [List.dropWhile_cons, hx, h3]⟩
    | false =>
      exact Or.inr ⟨by simp [hx], by simp [List.takeWhile_cons, hx],
        by simp [List.dropWhile_cons, hx]⟩

lemma takeWhile_eq_self_of_all {p : Char → Bool} {xs : List Char}
    (h : xs.all p = true) : xs.takeWhile p = xs := by
  rcases takeWhile_append_cases p xs [] with ⟨_, h2, _⟩ | ⟨h1, _, _⟩
  · simpa using h2
  · rw [h] at h1
    cases h1

lemma dropWhile_eq_nil_of_all {p : Char → Bool} {xs : List Char}
    (h : xs.all p = true) : xs.dropWhile p = [] := by
  rcases takeWhile_append_cases p xs [] with ⟨_, _, h3⟩ | ⟨h1, _, _⟩
  · simpa using h3
  · rw [h] at h1
    cases h1

/-- Unfolding of joinSegs on a cons. -/
lemma joinSegs_cons (s : List Char) (rest : List (List Char)) :
    joinSegs (s :: rest) = '/' :: (s ++ joinSegs rest) := rfl

lemma normIdPass_cons_slash (rest : List Char) :
    normIdPass ('/' :: rest) =
      if 24 ≤ (rest.takeWhile isAlnumAscii).length then
        '/' :: ':' :: 'i' :: 'd' :: normIdPass (rest.dropWhile isAlnumAscii)
      else '/' :: normIdPass rest := by
  simp [normIdPass]

lemma normIdPass_cons_other {c : Char} (rest : List Char) (hc : ¬ c = '/') :
    normIdPass (c :: rest) = c :: normIdPass rest := by
  simp [normIdPass, hc]

lemma normNumPass_cons_slash (rest : List Char) :
    normNumPass ('/' :: rest) =
      if 1 ≤ (rest.takeWhile isDigitAscii).length then
        '/' :: ':' :: 'n' :: 'u' :: 'm' :: normNumPass (rest.dropWhile isDigitAscii)
      else '/' :: normNumPass rest := by
  simp [normNumPass]

lemma normNumPass_cons_other {c : Char} (rest : List Char) (hc : ¬ c = '/') :
    normNumPass (c :: rest) = c :: normNumPass rest := by
  simp [normNumPass, hc]

lemma stripQuery_cons_q (rest : List Char) :
    stripQuery ('?' :: rest) = stripQuery (rest.dropWhile (fun d => ¬ d = '\n')) := by
  simp [stripQuery]

lemma stripQuery_cons_other {c : Char} (rest : List Char) (hc : ¬ c = '?') :
    stripQuery (c :: rest) = c :: stripQuery rest := by
  simp [stripQuery, hc]

/-- A joined segment list is empty or starts with a slash, so a character
run that cannot contain a slash stops right there. -/
lemma joinSegs_stop (p : Char → Bool) (hp : p '/' = false) (segs : List (List Char)) :
    (joinSegs segs).takeWhile p = [] ∧ (joinSegs segs).dropWhile p = joinSegs segs := by
  cases segs with
  | nil => simp [joinSegs]
  | cons s rest =>
    rw [joinSegs_cons]
    constructor
    · rw [List.takeWhile_cons, hp]
      simp
    · rw [List.dropWhile_cons, hp]
      simp

lemma normIdPass_no_slash : ∀ (s t : List Char), (∀ c ∈ s, ¬ c = '/') →
    normIdPass (s ++ t) = s ++ normIdPass t
  | [], t, _ => by simp
  | c :: s, t, h => by
    have hc : ¬ c = '/' := h c (by simp)
    rw [List.cons_append, normIdPass_cons_other _ hc,
      normIdPass_no_slash s t (fun d hd => h d (by simp [hd]))]
    rfl

lemma normNumPass_no_slash : ∀ (s t : List Char), (∀ c ∈ s, ¬ c = '/') →
    normNumPass (s ++ t) = s ++ normNumPass t
  | [], t, _ => by simp
  | c :: s, t, h => by
    have hc : ¬ c = '/' := h c (by simp)
    rw [List.cons_append, normNumPass_cons_other _ hc,
      normNumPass_no_slash s t (fun d hd => h d (by simp [hd]))]
    rfl

lemma alnum_no_slash {s : List Char} (h : ∀ c ∈ s, isAlnumAscii c = true) :
    ∀ c ∈ s, ¬ c = '/' := by
  intro c hc hceq
  have := h c hc
  rw [hceq] at this
  exact absurd this (by decide)

/-- The CUID/UUID pass over a segmented path replaces exactly the segments
of 24 or more characters. -/
lemma normIdPass_joinSegs : ∀ segs : List (List Char),
    (∀ s ∈ segs, s ≠ [] ∧ ∀ c ∈ s, isAlnumAscii c = true) →
    normIdPass (joinSegs segs) =
      joinSegs (segs.map (fun s => if 24 ≤ s.length then [':', 'i', 'd'] else s))
  | [], _ => by simp [joinSegs, normIdPass]
  | s :: rest, h => by
    obtain ⟨hne, halnum⟩ := h s (by simp)
    have hJ := joinSegs_stop isAlnumAscii (by decide) rest
    have hsall : s.all isAlnumAscii = true := by
      rw [List.all_eq_true]
      simpa using halnum
    have hrec := normIdPass_joinSegs rest (fun t ht => h t (by simp [ht]))
    rw [joinSegs_cons, normIdPass_cons_slash]
    rcases takeWhile_append_cases isAlnumAscii s (joinSegs rest) with
      ⟨h1, h2, h3⟩ | ⟨h1, _, _⟩
    · rw [h2, hJ.1, List.append_nil, h3, hJ.2]
      by_cases hlen : 24 ≤ s.length
      · rw [if_pos hlen, hrec, List.map_cons, joinSegs_cons, if_pos hlen]
        rfl
      · rw [if_neg hlen, normIdPass_no_slash s (joinSegs rest) (alnum_no_slash halnum),
          hrec, List.map_cons, joinSegs_cons, if_neg hlen]
    · rw [hsall] at h1
      cases h1

/-- The numeric pass over the id-replaced segments replaces exactly the
all-digit segments (an id placeholder starts with a colon and is left
alone). -/
lemma normNumPass_joinSegs : ∀ segs : List (List Char),
    (∀ s ∈ segs, s ≠ [] ∧ (∀ c ∈ s, ¬ c = '/') ∧
      (s.all isDigitAscii = true ∨ isDigitAscii (s.headD '/') = false)) →
    normNumPass (joinSegs segs) =
      joinSegs (segs.map (fun s => if s.all isDigitAscii then [':', 'n', 'u', 'm'] else s))
  | [], _ => by simp [joinSegs, normNumPass]
  | s :: rest, h => by
    obtain ⟨hne, hnoslash, hdig⟩ := h s (by simp)
    have hJ := joinSegs_stop isDigitAscii (by decide) rest
    have hrec := normNumPass_joinSegs rest (fun t ht => h t (by simp [ht]))
    rw [joinSegs_cons, normNumPass_cons_slash]
    rcases hdig with hall | hhead
    · have hlen : 1 ≤ s.length := by
        rcases s with _ | ⟨c, s2⟩
        · exact absurd rfl hne
        · simp
      rcases takeWhile_append_cases isDigitAscii s (joinSegs rest) with
        ⟨h1, h2, h3⟩ | ⟨h1, _, _⟩
      · rw [h2, hJ.1, List.append_nil, h3, hJ.2, if_pos hlen, hrec,
          List.map_cons, joinSegs_cons, if_pos hall]
        rfl
      · rw [hall] at h1
        cases h1
    · rcases s with _ | ⟨c, s2⟩
      · exact absurd rfl hne
      · have hc : isDigitAscii c = false := by simpa using hhead
        have htake : ((c :: s2) ++ joinSegs rest).takeWhile isDigitAscii = [] := by
          rw [List.cons_append, List.takeWhile_cons, hc]
          simp
        rw [htake]
        simp only [List.length_nil]
        rw [if_neg (by omega),
          normNumPass_no_slash (c :: s2) (joinSegs rest) hnoslash, hrec,
          List.map_cons, joinSegs_cons,
          if_neg (by rw [List.all_cons, hc]; simp)]

lemma normIdPass_nil : normIdPass [] = [] := by simp [normIdPass]

lemma normNumPass_nil : normNumPass [] = [] := by simp [normNumPass]

lemma stripQuery_nil : stripQuery [] = [] := by simp [stripQuery]

/-- A placeholder replace never matches across a question mark: the pass
distributes over it. -/
lemma normIdPass_split : ∀ (xs ys : List Char),
    normIdPass (xs ++ '?' :: ys) = normIdPass xs ++ '?' :: normIdPass ys
  | [], ys => by
    rw [List.nil_append, normIdPass_cons_other _ (by decide), normIdPass_nil]
    rfl
  | c :: xs, ys => by
    by_cases hc : c = '/'
    · subst hc
      rw [List.cons_append, normIdPass_cons_slash, normIdPass_cons_slash]
      rcases takeWhile_append_cases isAlnumAscii xs ('?' :: ys) with
        ⟨h1, h2, h3⟩ | ⟨h1, h2, h3⟩
      · have hq : isAlnumAscii '?' = false := by decide
        have ht : ('?' :: ys).takeWhile isAlnumAscii = [] := by
          rw [List.takeWhile_cons, hq]
          simp
        have hd : ('?' :: ys).dropWhile isAlnumAscii = '?' :: ys := by
          rw [List.dropWhile_cons, hq]
          simp
        rw [h2, ht, List.append_nil, h3, hd, takeWhile_eq_self_of_all h1,
          dropWhile_eq_nil_of_all h1]
        by_cases hlen : 24 ≤ xs.length
        · rw [if_pos hlen, if_pos hlen, normIdPass_nil,
            normIdPass_cons_other _ (by decide)]
          rfl
        · rw [if_neg hlen, if_neg hlen, normIdPass_split xs ys]
          rfl
      · rw [h2, h3]
        by_cases hlen : 24 ≤ (xs.takeWhile isAlnumAscii).length
        · rw [if_pos hlen, if_pos hlen, normIdPass_split (xs.dropWhile isAlnumAscii) ys]
          rfl
        · rw [if_neg hlen, if_neg hlen, normIdPass_split xs ys]
          rfl
    · rw [List.cons_append, normIdPass_cons_other _ hc, normIdPass_cons_other _ hc,
        normIdPass_split xs ys]
      rfl
termination_by xs ys => xs.length
decreasing_by
  all_goals simp only [List.length_cons]
  all_goals first
    | omega
    | exact Nat.lt_succ_of_le ((List.dropWhile_suffix _).sublist.length_le)

/-- Same for the numeric pass. -/
lemma normNumPass_split : ∀ (xs ys : List Char),
    normNumPass (xs ++ '?' :: ys) = normNumPass xs ++ '?' :: normNumPass ys
  | [], ys => by
    rw [List.nil_append, normNumPass_cons_other _ (by decide), normNumPass_nil]
    rfl
  | c :: xs, ys => by
    by_cases hc : c = '/'
    · subst hc
      rw [List.cons_append, normNumPass_cons_slash, normNumPass_cons_slash]
      rcases takeWhile_append_cases isDigitAscii xs ('?' :: ys) with
        ⟨h1, h2, h3⟩ | ⟨h1, h2, h3⟩
      · have hq : isDigitAscii '?' = false := by decide
        have ht : ('?' :: ys).takeWhile isDigitAscii = [] := by
          rw [List.takeWhile_cons, hq]
          simp
        have hd : ('?' :: ys).dropWhile isDigitAscii = '?' :: ys := by
          rw [List.dropWhile_cons, hq]
          simp
        rw [h2, ht, List.append_nil, h3, hd, takeWhile_eq_self_of_all h1,
          dropWhile_eq_nil_of_all h1]
        by_cases hlen : 1 ≤ xs.length
        · rw [if_pos hlen, if_pos hlen, normNumPass_nil,
            normNumPass_cons_other _ (by decide)]
          rfl
        · rw [if_neg hlen, if_neg hlen, normNumPass_split xs ys]
          rfl
      · rw [h2, h3]
        by_cases hlen : 1 ≤ (xs.takeWhile isDigitAscii).length
        · rw [if_pos hlen, if_pos hlen, normNumPass_split (xs.dropWhile isDigitAscii) ys]
          rfl
        · rw [if_neg hlen, if_neg hlen, normNumPass_split xs ys]
          rfl
    · rw [List.cons_append, normNumPass_cons_other _ hc, normNumPass_cons_other _ hc,
        normNumPass_split xs ys]
      rfl
termination_by xs ys => xs.length
decreasing_by
  all_goals simp only [List.length_cons]
  all_goals first
    | omega
    | exact Nat.lt_succ_of_le ((List.dropWhile_suffix _).sublist.length_le)

/-- Every character the id pass outputs comes from the input or from the
placeholder text. -/
lemma mem_normIdPass : ∀ (l : List Char) (c : Char), c ∈ normIdPass l →
    c ∈ l ∨ c = ':' ∨ c = 'i' ∨ c = 'd'
  | [], c, h => by
    rw [normIdPass_nil] at h
    cases h
  | a :: rest, c, h => by
    by_cases ha : a = '/'
    · subst ha
      rw [normIdPass_cons_slash] at h
      by_cases hlen : 24 ≤ (rest.takeWhile isAlnumAscii).length
      · rw [if_pos hlen] at h
        simp only [List.mem_cons] at h
        rcases h with rfl | rfl | rfl | rfl | h
        · exact Or.inl (by simp)
        · exact Or.inr (Or.inl rfl)
        · exact Or.inr (Or.inr (Or.inl rfl))
        · exact Or.inr (Or.inr (Or.inr rfl))
        · rcases mem_normIdPass (rest.dropWhile isAlnumAscii) c h with h2 | h2
          · exact Or.inl (List.mem_cons_of_mem _
              ((List.dropWhile_suffix isAlnumAscii).sublist.subset h2))
          · exact Or.inr h2
      · rw [if_neg hlen] at h
        simp only [List.mem_cons] at h
        rcases h with rfl | h
        · exact Or.inl (by simp)
        · rcases mem_normIdPass rest c h with h2 | h2
          · exact Or.inl (List.mem_cons_of_mem _ h2)
          · exact Or.inr h2
    · rw [normIdPass_cons_other _ ha] at h
      simp only [List.mem_cons] at h
      rcases h with rfl | h
      · exact Or.inl (by simp)
      · rcases mem_normIdPass rest c h with h2 | h2
        · exact Or.inl (List.mem_cons_of_mem _ h2)
        · exact Or.inr h2
termination_by l c h => l.length
decreasing_by
  all_goals simp only [List.length_cons]
  all_goals first
    | omega
    | exact Nat.lt_succ_of_le ((List.dropWhile_suffix _).sublist.length_le)

/-- Same for the numeric pass. -/
lemma mem_normNumPass : ∀ (l : List Char) (c : Char), c ∈ normNumPass l →
    c ∈ l ∨ c = ':' ∨ c = 'n' ∨ c = 'u' ∨ c = 'm'
  | [], c, h => by
    rw [normNumPass_nil] at h
    cases h
  | a :: rest, c, h => by
    by_cases ha : a = '/'
    · subst ha
      rw [normNumPass_cons_slash] at h
      by_cases hlen : 1 ≤ (rest.takeWhile isDigitAscii).length
      · rw [if_pos hlen] at h
        simp only [List.mem_cons] at h
        rcases h with rfl | rfl | rfl | rfl | rfl | h
        · exact Or.inl (by simp)
        · exact Or.inr (Or.inl rfl)
        · exact Or.inr (Or.inr (Or.inl rfl))
        · exact Or.inr (Or.inr (Or.inr (Or.inl rfl)))
        · exact Or.inr (Or.inr (Or.inr (Or.inr rfl)))
        · rcases mem_normNumPass (rest.dropWhile isDigitAscii) c h with h2 | h2
          · exact Or.inl (List.mem_cons_of_mem _
              ((List.dropWhile_suffix isDigitAscii).sublist.subset h2))
          · exact Or.inr h2
      · rw [if_neg hlen] at h
        simp only [List.mem_cons] at h
        rcases h with rfl | h
        · exact Or.inl (by simp)
        · rcases mem_normNumPass rest c h with h2 | h2
          · exact Or.inl (List.mem_cons_of_mem _ h2)
          · exact Or.inr h2
    · rw [normNumPass_cons_other _ ha] at h
      simp only [List.mem_cons] at h
      rcases h with rfl | h
      · exact Or.inl (by simp)
      · rcases mem_normNumPass rest c h with h2 | h2
        · exact Or.inl (List.mem_cons_of_mem _ h2)
        · exact Or.inr h2
termination_by l c h => l.length
decreasing_by
  all_goals simp only [List.length_cons]
  all_goals first
    | omega
    | exact Nat.lt_succ_of_le ((List.dropWhile_suffix _).sublist.length_le)

lemma stripQuery_append_no_q : ∀ (xs rest : List Char), (∀ c ∈ xs, ¬ c = '?') →
    stripQuery (xs ++ rest) = xs ++ stripQuery rest
  | [], rest, _ => by simp
  | c :: xs, rest, h => by
    have hc : ¬ c = '?' := h c (by simp)
    rw [List.cons_append, stripQuery_cons_other _ hc,
      stripQuery_append_no_q xs rest (fun d hd => h d (by simp [hd]))]
    rfl

lemma stripQuery_no_q (xs : List Char) (h : ∀ c ∈ xs, ¬ c = '?') :
    stripQuery xs = xs := by
  have := stripQuery_append_no_q xs [] h
  simpa [stripQuery_nil] using this

/-! #### Top-endpoint lemmas -/

lemma mem_insertDesc (x : EndpointEntry) : ∀ (l : List EndpointEntry)
    (z : EndpointEntry), z ∈ insertDesc x l → z = x ∨ z ∈ l
  | [], z, h => by
    rw [insertDesc] at h
    simp only [List.mem_singleton] at h
    exact Or.inl h
  | y :: ys, z, h => by
    rw [insertDesc] at h
    split at h
    · rcases List.mem_cons.mp h with rfl | h2
      · exact Or.inl rfl
      · exact Or.inr h2
    · rcases List.mem_cons.mp h with rfl | h2
      · exact Or.inr (by simp)
      · rcases mem_insertDesc x ys z h2 with h3 | h3
        · exact Or.inl h3
        · exact Or.inr (List.mem_cons_of_mem _ h3)

lemma pairwise_insertDesc (x : EndpointEntry) : ∀ (l : List EndpointEntry),
    l.Pairwise (fun a b => b.count ≤ a.count) →
    (insertDesc x l).Pairwise (fun a b => b.count ≤ a.count)
  | [], _ => by
    rw [insertDesc]
    simp
  | y :: ys, h => by
    rw [insertDesc]
    rcases List.pairwise_cons.mp h with ⟨hy, hys⟩
    split
    · rename_i hc
      refine List.pairwise_cons.mpr ⟨?_, h⟩
      intro z hz
      rcases List.mem_cons.mp hz with rfl | hz2
      · omega
      · have := hy z hz2
        omega
    · rename_i hc
      refine List.pairwise_cons.mpr ⟨?_, pairwise_insertDesc x ys hys⟩
      intro z hz
      rcases mem_insertDesc x ys z hz with rfl | hz2
      · omega
      · exact hy z hz2

lemma pairwise_sortByCountDesc : ∀ l : List EndpointEntry,
    (sortByCountDesc l).Pairwise (fun a b => b.count ≤ a.count)
  | [] => by simp [sortByCountDesc]
  | x :: xs => by
    rw [sortByCountDesc, List.foldr_cons]
    exact pairwise_insertDesc x _ (pairwise_sortByCountDesc xs)

/-- C9.  recordRequest buckets by minute and groups by the normalized path:
its two endpoint-hash writes go to the key of the current minute with the
field built from the method and the normalized path; the normalization
replaces every long-id segment and every numeric segment of a
slash-separated path by its placeholder and drops any query string; and the
reported endpoint statistics are the top ten rows by request count
(descending). -/
theorem metricsRecorder_request_metrics
    (path method : String) (statusCode latencyMs : Int) (minute : String)
    (stats : List (String × Int)) (segs : List (List Char)) (p q : String)
    (hsegs : ∀ s ∈ segs, s ≠ [] ∧ (∀ c ∈ s, isAlnumAscii c = true) ∧
      (24 ≤ s.length ∨ s.all isDigitAscii = true ∨ isDigitAscii (s.headD '/') = false))
    (hp : ∀ c ∈ p.toList, ¬ c = '?')
    (hq : ∀ c ∈ q.toList, ¬ c = '\n') :
    ((recordRequest path method statusCode latencyMs minute).filter isHincrby =
      [RedisCmd.hincrby ("metrics:endpoint:" ++ minute)
        (method ++ ":" ++ normalizePath path ++ ":count") 1,
       RedisCmd.hincrby ("metrics:endpoint:" ++ minute)
        (method ++ ":" ++ normalizePath path ++ ":latency") latencyMs]) ∧
    normalizePath ⟨joinSegs segs⟩ = ⟨joinSegs (segs.map normSegChars)⟩ ∧
    normalizePath (p ++ "?" ++ q) = normalizePath p ∧
    (parseEndpointStats stats).length ≤ 10 ∧
    (parseEndpointStats stats).Pairwise (fun a b => b.count ≤ a.count) := by
  refine ⟨?_, ?_, ?_, ?_, ?_⟩
  · by_cases h4 : (400 : Int) ≤ statusCode <;>
      simp [recordRequest, isHincrby, h4, List.filter_append]
  · have hid := normIdPass_joinSegs segs (fun s hs => ⟨(hsegs s hs).1, (hsegs s hs).2.1⟩)
    have hnum := normNumPass_joinSegs
      (segs.map (fun s => if 24 ≤ s.length then [':', 'i', 'd'] else s))
      (by
        intro t ht
        rcases List.mem_map.mp ht with ⟨s, hs, rfl⟩
        obtain ⟨hne, halnum, hdisj⟩ := hsegs s hs
        by_cases hlen : 24 ≤ s.length
        · rw [if_pos hlen]
          exact ⟨by simp, by decide, Or.inr (by decide)⟩
        · rw [if_neg hlen]
          refine ⟨hne, alnum_no_slash halnum, ?_⟩
          rcases hdisj with h24 | hdig | hhead
          · exact absurd h24 hlen
          · exact Or.inl hdig
          · exact Or.inr hhead)
    have hnoq : ∀ c ∈ joinSegs (segs.map normSegChars), ¬ c = '?' := by
      intro c hc hceq
      subst hceq
      clear hid hnum
      induction segs with
      | nil => cases hc
      | cons s rest ih =>
        rw [List.map_cons, joinSegs_cons] at hc
        rcases List.mem_cons.mp hc with h1 | h1
        · exact absurd h1 (by decide)
        · rcases List.mem_append.mp h1 with h2 | h2
          · obtain ⟨hne, halnum, _⟩ := hsegs s (by simp)
            rw [normSegChars] at h2
            split at h2
            · simp at h2
            · split at h2
              · simp at h2
              · exact absurd (halnum '?' h2) (by decide)
          · exact ih (fun t ht => hsegs t (by simp [ht])) h2
    show String.mk (stripQuery (normNumPass (normIdPass (joinSegs segs)))) = _
    rw [hid, hnum]
    have hmapmap : (segs.map (fun s => if 24 ≤ s.length then [':', 'i', 'd'] else s)).map
        (fun s => if s.all isDigitAscii then [':', 'n', 'u', 'm'] else s) =
        segs.map normSegChars := by
      rw [List.map_map]
      apply List.map_congr_left
      intro s hs
      simp only [Function.comp_apply, normSegChars]
      by_cases hlen : 24 ≤ s.length
      · rw [if_pos hlen, if_pos hlen]
        rw [if_neg (by decide)]
      · rw [if_neg hlen, if_neg hlen]
    rw [hmapmap, stripQuery_no_q _ hnoq]
  · have hdata : (p ++ "?" ++ q).toList = p.toList ++ '?' :: q.toList := by
      simp [String.toList, String.data_append]
    show String.mk (stripQuery (normNumPass (normIdPass (p ++ "?" ++ q).toList))) = _
    rw [hdata, normIdPass_split, normNumPass_split]
    have hpn : ∀ c ∈ normNumPass (normIdPass p.toList), ¬ c = '?' := by
      intro c hc hceq
      subst hceq
      rcases mem_normNumPass _ _ hc with h1 | h1 | h1 | h1 | h1
      · rcases mem_normIdPass _ _ h1 with h2 | h2 | h2 | h2
        · exact hp _ h2 rfl
        all_goals exact absurd h2 (by decide)
      all_goals exact absurd h1 (by decide)
    have hqn : ∀ c ∈ normNumPass (normIdPass q.toList), ¬ c = '\n' := by
      intro c hc hceq
      subst hceq
      rcases mem_normNumPass _ _ hc with h1 | h1 | h1 | h1 | h1
      · rcases mem_normIdPass _ _ h1 with h2 | h2 | h2 | h2
        · exact hq _ h2 rfl
        all_goals exact absurd h2 (by decide)
      all_goals exact absurd h1 (by decide)
    rw [stripQuery_append_no_q _ _ hpn, stripQuery_cons_q]
    have hdrop : (normNumPass (normIdPass q.toList)).dropWhile
        (fun d => ¬ d = '\n') = [] := by
      rw [List.dropWhile_eq_nil_iff]
      intro x hx
      simp [hqn x hx]
    rw [hdrop, stripQuery_nil, List.append_nil]
    show _ = String.mk (stripQuery (normNumPass (normIdPass p.toList)))
    rw [stripQuery_no_q _ hpn]
  · simp only [parseEndpointStats]
    exact List.length_take_le _ _
  · simp only [parseEndpointStats]
    exact (pairwise_sortByCountDesc _).sublist (List.take_sublist _ _)

/-- Concrete instance of C9: a three-segment path with a plain, a long-id
and a numeric segment, a query-carrying path, and a four-field stats
hash. -/
theorem metricsRecorder_request_metrics_witness :
    ((recordRequest "/posts/7" "GET" 200 12 "202501011200").filter isHincrby =
      [RedisCmd.hincrby ("metrics:endpoint:" ++ "202501011200")
        ("GET" ++ ":" ++ normalizePath "/posts/7" ++ ":count") 1,
       RedisCmd.hincrby ("metrics:endpoint:" ++ "202501011200")
        ("GET" ++ ":" ++ normalizePath "/posts/7" ++ ":latency") 12]) ∧
    normalizePath ⟨joinSegs ["posts".toList, "ck2a8fh3b0000qzrmn831i7rn".toList,
        "123".toList]⟩ =
      ⟨joinSegs (["posts".toList, "ck2a8fh3b0000qzrmn831i7rn".toList,
        "123".toList].map normSegChars)⟩ ∧
    normalizePath ("/posts" ++ "?" ++ "page=2") = normalizePath "/posts" ∧
    (parseEndpointStats [("GET:/posts:count", 5), ("GET:/posts:latency", 60),
        ("POST:/login:count", 2), ("POST:/login:latency", 30)]).length ≤ 10 ∧
    (parseEndpointStats [("GET:/posts:count", 5), ("GET:/posts:latency", 60),
        ("POST:/login:count", 2), ("POST:/login:latency", 30)]).Pairwise
      (fun a b => b.count ≤ a.count) :=
  metricsRecorder_request_metrics "/posts/7" "GET" 200 12 "202501011200"
    [("GET:/posts:count", 5), ("GET:/posts:latency", 60),
      ("POST:/login:count", 2), ("POST:/login:latency", 30)]
    ["posts".toList, "ck2a8fh3b0000qzrmn831i7rn".toList, "123".toList]
    "/posts" "page=2" (by decide) (by decide) (by decide)

end CodebCMS
